import Mathlib

/-!
# ormx model generator: embedding of `generate/generate.go`

Go strings and byte slices are modelled as lists of characters (`Str`).  A
well-formed UTF-8 sequence of the Go value is one character of the list; a
byte that belongs to no well-formed sequence (the source produces such bytes
when it slices a name inside a letter, `s[:1]`) is the character `rawByte b`.
Lengths, offsets and capacities count bytes, as in the source: `byteLen` is
`len(s)`, `takeBytes n s` is `s[:n]` and `dropBytes n s` is `s[n:]`.
String helpers of the Go standard library (`strings.Split`, `strings.Fields`,
`strings.Trim`, ...) are given as structurally recursive functions so that
every definition below can be evaluated.
-/

namespace Ormx

/-- Text: a Go `string` (or `[]byte`) seen as its sequence of characters and
of bytes outside well-formed sequences.  The source joins the pieces it cuts
with ASCII text only (the generated block starts and ends with a line feed),
so no run of such bytes forms a character. -/
abbrev Str := List Char

/-- Literal text of the source as a `Str`. -/
def txt (s : String) : Str := s.toList

/-! ## Go standard library helpers -/

/-- The character that stands for a byte `b` from 128 to 255 which is not part
of a well-formed UTF-8 sequence: the code point `0x10FF00 + b`.  (Texts that
hold the private-use code points U+10FF80 to U+10FFFF themselves are outside
the model.) -/
def rawByte (b : Nat) : Char := Char.ofNat (1113856 + b)

/-- Whether a character stands for a byte outside every well-formed sequence. -/
def isRawByte (c : Char) : Bool := decide (1113984 ≤ c.toNat)

/-- The bytes of one character in a Go string: its UTF-8 encoding, or the
single byte that a `rawByte` stands for. -/
def utf8Bytes (c : Char) : List Nat :=
  if isRawByte c then [c.toNat - 1113856]
  else if c.toNat < 128 then [c.toNat]
  else if c.toNat < 2048 then [192 + c.toNat / 64, 128 + c.toNat % 64]
  else if c.toNat < 65536 then
    [224 + c.toNat / 4096, 128 + c.toNat / 64 % 64, 128 + c.toNat % 64]
  else
    [240 + c.toNat / 262144, 128 + c.toNat / 4096 % 64, 128 + c.toNat / 64 % 64,
      128 + c.toNat % 64]

/-- Number of bytes of one character. -/
def utf8Size (c : Char) : Nat := (utf8Bytes c).length

/-- Model of `len(s)` for a Go string or byte slice: the number of bytes. -/
def byteLen (s : Str) : Nat := (s.map utf8Size).sum

/-- A single byte as a character of the model: an ASCII character, or a byte
outside every well-formed sequence. -/
def byteChar (b : Nat) : Char := if b < 128 then Char.ofNat b else rawByte b

/-- The bytes of one character, each taken on its own. -/
def explode (c : Char) : Str := (utf8Bytes c).map byteChar

/-- Model of the slice expression `s[:n]`: the first `n` bytes of `s`.  A cut
inside a character leaves the bytes before the cut on their own. -/
def takeBytes (n : Nat) : Str → Str
  | [] => []
  | c :: s =>
    if utf8Size c ≤ n then c :: takeBytes (n - utf8Size c) s
    else (explode c).take n

/-- Model of the slice expression `s[n:]`: `s` without its first `n` bytes.  A
cut inside a character leaves the bytes after the cut on their own. -/
def dropBytes (n : Nat) : Str → Str
  | [] => []
  | c :: s =>
    if n = 0 then c :: s
    else if utf8Size c ≤ n then dropBytes (n - utf8Size c) s
    else (explode c).drop n ++ s

/-- The bytes of a Go string or byte slice, in order. -/
def toBytes (s : Str) : List Nat := (s.map utf8Bytes).flatten

/-- The capitals outside ASCII with their lower-case letters, as in
`unicode.CaseRanges` (the simple lower-case mappings of Unicode 15.0, the
table of Go 1.21): an entry `(lo, hi, stride, to)` maps the code points `lo`,
`lo + stride`, ..., `hi` to `to`, `to + stride`, ... -/
def lowerCaseRanges : List (Nat × Nat × Nat × Nat) :=
  [(192, 214, 1, 224), (216, 222, 1, 248), (256, 302, 2, 257),
   (304, 304, 1, 105), (306, 310, 2, 307), (313, 327, 2, 314), (330, 374, 2, 331),
   (376, 376, 1, 255), (377, 381, 2, 378), (385, 385, 1, 595), (386, 388, 2, 387),
   (390, 390, 1, 596), (391, 391, 1, 392), (393, 394, 1, 598), (395, 395, 1, 396),
   (398, 398, 1, 477), (399, 399, 1, 601), (400, 400, 1, 603), (401, 401, 1, 402),
   (403, 403, 1, 608), (404, 404, 1, 611), (406, 406, 1, 617), (407, 407, 1, 616),
   (408, 408, 1, 409), (412, 412, 1, 623), (413, 413, 1, 626), (415, 415, 1, 629),
   (416, 420, 2, 417), (422, 422, 1, 640), (423, 423, 1, 424), (425, 425, 1, 643),
   (428, 428, 1, 429), (430, 430, 1, 648), (431, 431, 1, 432), (433, 434, 1, 650),
   (435, 437, 2, 436), (439, 439, 1, 658), (440, 440, 1, 441), (444, 444, 1, 445),
   (452, 452, 1, 454), (453, 453, 1, 454), (455, 455, 1, 457), (456, 456, 1, 457),
   (458, 458, 1, 460), (459, 475, 2, 460), (478, 494, 2, 479), (497, 497, 1, 499),
   (498, 500, 2, 499), (502, 502, 1, 405), (503, 503, 1, 447), (504, 542, 2, 505),
   (544, 544, 1, 414), (546, 562, 2, 547), (570, 570, 1, 11365), (571, 571, 1, 572),
   (573, 573, 1, 410), (574, 574, 1, 11366), (577, 577, 1, 578), (579, 579, 1, 384),
   (580, 580, 1, 649), (581, 581, 1, 652), (582, 590, 2, 583), (880, 882, 2, 881),
   (886, 886, 1, 887), (895, 895, 1, 1011), (902, 902, 1, 940), (904, 906, 1, 941),
   (908, 908, 1, 972), (910, 911, 1, 973), (913, 929, 1, 945), (931, 939, 1, 963),
   (975, 975, 1, 983), (984, 1006, 2, 985), (1012, 1012, 1, 952), (1015, 1015, 1, 1016),
   (1017, 1017, 1, 1010), (1018, 1018, 1, 1019), (1021, 1023, 1, 891), (1024, 1039, 1, 1104),
   (1040, 1071, 1, 1072), (1120, 1152, 2, 1121), (1162, 1214, 2, 1163), (1216, 1216, 1, 1231),
   (1217, 1229, 2, 1218), (1232, 1326, 2, 1233), (1329, 1366, 1, 1377), (4256, 4293, 1, 11520),
   (4295, 4295, 1, 11559), (4301, 4301, 1, 11565), (5024, 5103, 1, 43888),
   (5104, 5109, 1, 5112), (7312, 7354, 1, 4304), (7357, 7359, 1, 4349), (7680, 7828, 2, 7681),
   (7838, 7838, 1, 223), (7840, 7934, 2, 7841), (7944, 7951, 1, 7936), (7960, 7965, 1, 7952),
   (7976, 7983, 1, 7968), (7992, 7999, 1, 7984), (8008, 8013, 1, 8000), (8025, 8031, 2, 8017),
   (8040, 8047, 1, 8032), (8072, 8079, 1, 8064), (8088, 8095, 1, 8080), (8104, 8111, 1, 8096),
   (8120, 8121, 1, 8112), (8122, 8123, 1, 8048), (8124, 8124, 1, 8115), (8136, 8139, 1, 8050),
   (8140, 8140, 1, 8131), (8152, 8153, 1, 8144), (8154, 8155, 1, 8054), (8168, 8169, 1, 8160),
   (8170, 8171, 1, 8058), (8172, 8172, 1, 8165), (8184, 8185, 1, 8056), (8186, 8187, 1, 8060),
   (8188, 8188, 1, 8179), (8486, 8486, 1, 969), (8490, 8490, 1, 107), (8491, 8491, 1, 229),
   (8498, 8498, 1, 8526), (8544, 8559, 1, 8560), (8579, 8579, 1, 8580), (9398, 9423, 1, 9424),
   (11264, 11311, 1, 11312), (11360, 11360, 1, 11361), (11362, 11362, 1, 619),
   (11363, 11363, 1, 7549), (11364, 11364, 1, 637), (11367, 11371, 2, 11368),
   (11373, 11373, 1, 593), (11374, 11374, 1, 625), (11375, 11375, 1, 592),
   (11376, 11376, 1, 594), (11378, 11378, 1, 11379), (11381, 11381, 1, 11382),
   (11390, 11391, 1, 575), (11392, 11490, 2, 11393), (11499, 11501, 2, 11500),
   (11506, 11506, 1, 11507), (42560, 42604, 2, 42561), (42624, 42650, 2, 42625),
   (42786, 42798, 2, 42787), (42802, 42862, 2, 42803), (42873, 42875, 2, 42874),
   (42877, 42877, 1, 7545), (42878, 42886, 2, 42879), (42891, 42891, 1, 42892),
   (42893, 42893, 1, 613), (42896, 42898, 2, 42897), (42902, 42920, 2, 42903),
   (42922, 42922, 1, 614), (42923, 42923, 1, 604), (42924, 42924, 1, 609),
   (42925, 42925, 1, 620), (42926, 42926, 1, 618), (42928, 42928, 1, 670),
   (42929, 42929, 1, 647), (42930, 42930, 1, 669), (42931, 42931, 1, 43859),
   (42932, 42946, 2, 42933), (42948, 42948, 1, 42900), (42949, 42949, 1, 642),
   (42950, 42950, 1, 7566), (42951, 42953, 2, 42952), (42960, 42960, 1, 42961),
   (42966, 42968, 2, 42967), (42997, 42997, 1, 42998), (65313, 65338, 1, 65345),
   (66560, 66599, 1, 66600), (66736, 66771, 1, 66776), (66928, 66938, 1, 66967),
   (66940, 66954, 1, 66979), (66956, 66962, 1, 66995), (66964, 66965, 1, 67003),
   (68736, 68786, 1, 68800), (71840, 71871, 1, 71872), (93760, 93791, 1, 93792),
   (125184, 125217, 1, 125218)]

/-- Lower-casing of one rune as `strings.ToLower` does it: `unicode.ToLower`,
with its test for ASCII first and the table otherwise.  A byte outside every
well-formed sequence is replaced by U+FFFD, as `strings.Map` does. -/
def toLowerRune (c : Char) : Char :=
  if c.toNat < 128 then
    if 65 ≤ c.toNat ∧ c.toNat ≤ 90 then Char.ofNat (c.toNat + 32) else c
  else if isRawByte c then Char.ofNat 65533
  else
    match lowerCaseRanges.find? (fun r =>
        decide (r.1 ≤ c.toNat ∧ c.toNat ≤ r.2.1) && (c.toNat - r.1) % r.2.2.1 == 0) with
    | some r => Char.ofNat (r.2.2.2 + (c.toNat - r.1))
    | none => c

/-- Model of `strings.ToLower`. -/
def ToLower (s : Str) : Str := s.map toLowerRune

/-- Model of `unicode.IsSpace`, the white space recognised by `strings.Fields`
and `strings.TrimSpace`. -/
def isSpace (c : Char) : Bool :=
  let n := c.toNat
  n == 9 || n == 10 || n == 11 || n == 12 || n == 13 || n == 32 || n == 133 || n == 160
    || n == 5760 || (8192 ≤ n && n ≤ 8202) || n == 8232 || n == 8233 || n == 8239
    || n == 8287 || n == 12288

/-- First byte of a character: the value of `s[0]` for a Go string `s` that
starts with this character. -/
def leadByte (c : Char) : Nat := (utf8Bytes c).headD 0

/-- Model of `string(s[0])`: the one-character string whose code point is the
first byte of `s` (the source indexes a name that the parser guarantees to be
non-empty). -/
def firstByteString (s : Str) : Str := (s.take 1).map (fun c => Char.ofNat (leadByte c))

/-- Model of `strings.HasSuffix`. -/
def HasSuffix (s suf : Str) : Bool := suf.reverse.isPrefixOf s.reverse

/-- Model of `strings.HasPrefix`. -/
def HasPrefix (s pre : Str) : Bool := pre.isPrefixOf s

/-- Model of `strings.TrimPrefix`. -/
def TrimPrefix (s pre : Str) : Str := if HasPrefix s pre then s.drop pre.length else s

/-- Model of `strings.Contains`. -/
def Contains : Str → Str → Bool
  | [], sub => sub.isPrefixOf []
  | c :: s, sub => sub.isPrefixOf (c :: s) || Contains s sub

/-- Removal of the leading and trailing characters satisfying `p`
(`strings.TrimFunc`). -/
def trimBoth (p : Char → Bool) (s : Str) : Str :=
  ((s.dropWhile p).reverse.dropWhile p).reverse

/-- Model of `strings.Trim(s, cutset)` for a one-character cutset. -/
def Trim (s : Str) (cut : Char) : Str := trimBoth (fun c => c == cut) s

/-- Model of `strings.TrimSpace`. -/
def TrimSpace (s : Str) : Str := trimBoth isSpace s

/-- Model of `strings.Split(s, sep)` for a one-character separator: the pieces
between the separators, `Count(s, sep) + 1` of them. -/
def Split (sep : Char) : Str → List Str
  | [] => [[]]
  | c :: s =>
    if c = sep then [] :: Split sep s
    else match Split sep s with
      | [] => [[c]]
      | h :: t => (c :: h) :: t

/-- Model of `strings.Join(parts, sep)`. -/
def Join (sep : Str) : List Str → Str
  | [] => []
  | [a] => a
  | a :: b :: rest => a ++ sep ++ Join sep (b :: rest)

/-- Model of `strings.Fields`: the maximal runs of non-space characters. -/
def Fields : Str → List Str
  | [] => []
  | [c] => if isSpace c then [] else [[c]]
  | c :: d :: s =>
    if isSpace c then Fields (d :: s)
    else if isSpace d then [c] :: Fields (d :: s)
    else match Fields (d :: s) with
      | [] => [[c]]
      | h :: t => (c :: h) :: t

/-! ## Syntax tree delivered by `go/parser` -/

/-- Type expression of a field (`ast.Expr` in type position): a simple name, a
qualified name `X.Sel`, or any other form (pointer, slice, map, ...). -/
inductive TypeExpr where
  | Ident (Name : Str)
  | SelectorExpr (X : Str) (Sel : Str)
  | Other
  deriving DecidableEq, Repr

/-- One entry of a struct field list (`ast.Field`): the declared names (none for
an embedded field, several for `A, B T`), the type and the raw tag literal. -/
structure Field where
  Names : List Str
  Typ : TypeExpr
  Tag : Option Str
  deriving DecidableEq, Repr

/-- Struct type node (`ast.StructType`) with the byte offset just past its
closing brace (`fset.Position(st.End()).Offset`). -/
structure StructType where
  Fields : List Field
  End : Nat
  deriving DecidableEq, Repr

/-! ## Tag and annotation parsing -/

/-- The backquote character delimiting raw struct tags. -/
def backquote : Char := Char.ofNat 96

/-- Source: `extractTableName`. -/
def extractTableName (comment : Str) : Str :=
  let comment := TrimSpace comment
  let parts := Fields comment
  match parts.find? (fun part => HasPrefix part (txt "table=")) with
  | some part => TrimPrefix part (txt "table=")
  | none => []

/-- Source: `reflectTagValue`. -/
def reflectTagValue (tag key : Str) : Str :=
  let tag := Trim tag backquote
  match (Split ' ' tag).find? (fun part => HasPrefix part (key ++ txt ":")) with
  | some part =>
    let val := TrimPrefix part (key ++ txt ":")
    Trim val '"'
  | none => []

/-- Body shared by the loops of `generateModelMethods`: the value of the `db`
tag of a field, empty when the field has no tag literal. -/
def dbTag (field : Field) : Str :=
  match field.Tag with
  | some v => reflectTagValue v (txt "db")
  | none => []

/-- Storage key computed in the loops of `generateModelMethods` from the first
name of a field and its tag: the `db` tag, or the lower-cased name. -/
def columnOf (name : Str) (field : Field) : Str :=
  let tag := dbTag field
  if tag ≠ [] then tag else ToLower name

/-! ## Code synthesis -/

/-- Model of `(*strings.Builder).WriteString`: the builder holds the text
written so far. -/
def WriteString (genCode s : Str) : Str := genCode ++ s

/-- Source: `lowerFirst`.  The first byte of the name, `s[:1]`, is lower-cased
on its own and followed by the other bytes, `s[1:]`. -/
def lowerFirst (s : Str) : Str :=
  if s = [] then s else ToLower (takeBytes 1 s) ++ dropBytes 1 s

/-- Type name written into a descriptor: the type switch on `field.Type` in
`generateModelMethods`, whose default is the literal `string`. -/
def typeName : TypeExpr → Str
  | .Ident Name => Name
  | .SelectorExpr X Sel => X ++ txt "." ++ Sel
  | .Other => txt "string"

/-- First loop of `generateModelMethods`: the pair `(primaryKey, firstField)`
taken from the first field that has a name; both stay empty when there is
none. -/
def primaryKeyLoop : List Field → Str × Str
  | [] => ([], [])
  | field :: rest =>
    match field.Names with
    | [] => primaryKeyLoop rest
    | firstField :: _ => (columnOf firstField field, firstField)

/-- Second loop of `generateModelMethods`: one quoted entry per field that has
a name, written to the builder. -/
def columnsLoop (fields : List Field) (genCode : Str) : Str :=
  fields.foldl (fun genCode field =>
    match field.Names with
    | [] => genCode
    | name :: _ =>
      let col := columnOf name field
      WriteString genCode (txt "\t\"" ++ col ++ txt "\",\n")) genCode

/-- Third loop of `generateModelMethods`: one `case` branch per field that has
a name, written to the builder. -/
def caseLoop (receiver : Str) (fields : List Field) (genCode : Str) : Str :=
  fields.foldl (fun genCode field =>
    match field.Names with
    | [] => genCode
    | name :: _ =>
      let col := columnOf name field
      let typ := typeName field.Typ
      let genCode := WriteString genCode (txt "\tcase \"" ++ col ++ txt "\":\n")
      WriteString genCode (txt "\t\treturn &ormx.OpsFields\x7bKey: \"" ++ col
        ++ txt "\", Typ: \"" ++ typ ++ txt "\", Value: " ++ receiver ++ txt "." ++ name
        ++ txt ", Ptr: &" ++ receiver ++ txt "." ++ name ++ txt "\x7d\n")) genCode

/-- Text of the banner line, first `WriteString` of `generateModelMethods`. -/
def bannerText (structName : Str) : Str :=
  txt "\n\n// --- Généré automatiquement pour " ++ structName ++ txt " ---\n\n"

/-- Comment and signature of the generated `GetMetaData`. -/
def metaDataOpen (receiver structName : Str) : Str :=
  txt "// GetMetaData renvoie les informations sur le model, la table, clé primaire, etc.\n"
    ++ (txt "func (" ++ receiver ++ txt " *" ++ structName
      ++ txt ") GetMetaData() ormx.ModelMeta \x7b\n")

/-- Body of the generated `GetMetaData`: the record with the primary key and
the table name. -/
def metaDataBody (primaryKey tableName : Str) : Str :=
  txt "\treturn ormx.ModelMeta\x7b\n\t\tPrimaryKey: \"" ++ primaryKey
    ++ txt "\",\n\t\tTable:      \"" ++ tableName ++ txt "\",\n\t\x7d\n"

/-- Comment lines written before the column variable. -/
def columnsComment : Str :=
  txt "// Variable statique qui renvoie le nom des colonnes, cela est beaucoup plus performant.\n"
    ++ txt "// IMPORTANT :\n"
    ++ txt "// Les valeurs doivent être dans le même ordre que la struct et la base de données.\n"
    ++ txt "// Si la base de données change, il faut mettre à jour cette variable statique.\n"

/-- Opening line of the column variable. -/
def columnsOpen (structName : Str) : Str :=
  txt "var " ++ lowerFirst structName ++ txt "Columns = []string\x7b\n"

/-- The generated `GetColumns`. -/
def getColumnsText (receiver structName : Str) : Str :=
  txt "// GetColumns renvoie les colonnes de la table de la base de données.\n"
    ++ (txt "func (" ++ receiver ++ txt " *" ++ structName ++ txt ") GetColumns() []string \x7b\n")
    ++ (txt "\treturn " ++ lowerFirst structName ++ txt "Columns\n\x7d\n\n")

/-- Comment, signature and `switch` line of the generated `GetField`. -/
def getFieldOpen (receiver structName : Str) : Str :=
  txt "// GetField renvoie une structure ormx.OpsFields avec toutes les infos et le pointer vers un champ.\n"
    ++ (txt "func (" ++ receiver ++ txt " *" ++ structName
      ++ txt ") GetField(field string) *ormx.OpsFields \x7b\n")
    ++ txt "\tswitch field \x7b\n"

/-- Default branch and end of the generated `GetField`. -/
def getFieldClose : Str := txt "\tdefault:\n\t\treturn nil\n\t\x7d\n\x7d\n\n"

/-- The generated `IsNew`, `SetLastID` and `GetPrimaryKeyVal`. -/
def keyAccessorsText (receiver structName firstField : Str) : Str :=
  txt "// IsNew permet de savoir s'il s'agit d'un nouvel objet.\n"
    ++ txt "// Un nouvel objet à toujours la valeur de sa clé primaire vide (0).\n"
    ++ txt "// Si la clé primaire n'est pas vide, cela veut dire qu'il existe dans la DB.\n"
    ++ (txt "func (" ++ receiver ++ txt " *" ++ structName ++ txt ") IsNew() bool \x7b\n")
    ++ (txt "\tif " ++ receiver ++ txt ".setNew \x7b\n\t\treturn true\n\t\x7d\n")
    ++ (txt "\treturn " ++ receiver ++ txt "." ++ firstField ++ txt " == 0\n\x7d\n\n")
    ++ txt "// SetLastID permet d'injecter le dernier ID lors d'une insertion dans la DB\n"
    ++ (txt "func (" ++ receiver ++ txt " *" ++ structName ++ txt ") SetLastID(id int64) \x7b\n")
    ++ (txt "\t" ++ receiver ++ txt "." ++ firstField ++ txt " = id\n\x7d\n\n")
    ++ txt "// GetPrimaryKeyVal utilisé pour les génériques, il permet de renvoyer la valeur de la clé primaire.\n"
    ++ (txt "func (" ++ receiver ++ txt " *" ++ structName
      ++ txt ") GetPrimaryKeyVal() int64 \x7b\n")
    ++ (txt "\treturn " ++ receiver ++ txt "." ++ firstField ++ txt "\n\x7d\n\n")

/-- Source: `generateModelMethods`.  The builder `genCode` receives the texts in
the order of the source; the three loops over `st.Fields.List` are
`primaryKeyLoop`, `columnsLoop` and `caseLoop`, and the runs of `WriteString`
between them are the texts defined above. -/
def generateModelMethods (structName receiver tableName : Str) (st : StructType) : Str :=
  let genCode : Str := []
  let genCode := WriteString genCode (bannerText structName)
  let (primaryKey, firstField) := primaryKeyLoop st.Fields
  let genCode := WriteString genCode (metaDataOpen receiver structName)
  let genCode := WriteString genCode (metaDataBody primaryKey tableName)
  let genCode := WriteString genCode (txt "\x7d\n\n")
  let genCode := WriteString genCode columnsComment
  let genCode := WriteString genCode (columnsOpen structName)
  let genCode := columnsLoop st.Fields genCode
  let genCode := WriteString genCode (txt "\x7d\n\n")
  let genCode := WriteString genCode (getColumnsText receiver structName)
  let genCode := WriteString genCode (getFieldOpen receiver structName)
  let genCode := caseLoop receiver st.Fields genCode
  let genCode := WriteString genCode getFieldClose
  let genCode := WriteString genCode (keyAccessorsText receiver structName firstField)
  genCode

/-! ## Import patching -/

/-- White space of the regular-expression class `\s`: tab, line feed, form
feed, carriage return and space. -/
def isReSpace (c : Char) : Bool :=
  c == '\t' || c == '\n' || c == Char.ofNat 12 || c == '\r' || c == ' '

/-- The quoted module reference `"ormx"`. -/
def quotedOrmx : Str := txt "\"ormx\""

/-- Remainder of the group alternative `\([\s\S]*?"ormx"[\s\S]*?\)` once the
opening parenthesis is consumed: some occurrence of `"ormx"` is followed, at
any distance, by a closing parenthesis (`[\s\S]` matches every character). -/
def ormxThenClose : Str → Bool
  | [] => false
  | c :: s =>
    (quotedOrmx.isPrefixOf (c :: s) && ((c :: s).drop quotedOrmx.length).contains ')')
      || ormxThenClose s

/-- Match of `import\s*(\([\s\S]*?"ormx"[\s\S]*?\)|"ormx")` starting at the
first character of `t`.  Both alternatives begin with a character that is not
white space, so `\s*` consumes the whole run of white space after `import`. -/
def matchOrmxAt (t : Str) : Bool :=
  (txt "import").isPrefixOf t &&
    (let r := (t.drop (txt "import").length).dropWhile isReSpace
     quotedOrmx.isPrefixOf r ||
      (match r with
       | '(' :: g => ormxThenClose g
       | _ => false))

/-- Model of `re.MatchString` for the pattern of `ensureOrmxImport`: the
pattern matches at some position of the text. -/
def MatchString : Str → Bool
  | [] => false
  | c :: s => matchOrmxAt (c :: s) || MatchString s

/-- First loop of `ensureOrmxImport`: the lines after the patch of the first
line that opens an import group or is a single-line import, `none` when the
loop ends with `insertedImport` still false. -/
def insertImport : List Str → Option (List Str)
  | [] => none
  | line :: rest =>
    if HasPrefix line (txt "import (") then
      some (line :: txt "\t\"ormx\"" :: rest)
    else if HasPrefix line (txt "import ") && Contains line (txt "\"") then
      let pkg := TrimSpace (TrimPrefix line (txt "import"))
      let pkg := Trim pkg '"'
      some ((txt "import (\n\t\"" ++ pkg ++ txt "\"\n\t\"ormx\"\n)") :: rest)
    else (insertImport rest).map (fun patched => line :: patched)

/-- Second loop of `ensureOrmxImport`: a new import group after the first
`package` line, the lines unchanged when there is none. -/
def insertAfterPackage : List Str → List Str
  | [] => []
  | line :: rest =>
    if HasPrefix line (txt "package ") then
      line :: txt "import (\n\t\"ormx\"\n)" :: rest
    else line :: insertAfterPackage rest

/-- Source: `ensureOrmxImport`. -/
def ensureOrmxImport (src : Str) : Str :=
  if MatchString src then src
  else
    let lines := Split '\n' src
    match insertImport lines with
    | some lines => Join (txt "\n") lines
    | none => Join (txt "\n") (insertAfterPackage lines)

/-! ## File selection and the per-file transformation -/

/-- Model of `filepath.Base` with `/` as separator: the last element of the
path, trailing separators removed. -/
def Base (path : Str) : Str :=
  if path = [] then txt "."
  else
    let path := (path.reverse.dropWhile (fun c => c == '/')).reverse
    let path := (path.reverse.takeWhile (fun c => c != '/')).reverse
    if path = [] then txt "/" else path

/-- Source: `shouldProcessFile`. -/
def shouldProcessFile (path : Str) (src : Str) : Bool :=
  let base := Base path
  if base = txt "prototype.go" || base = txt "model_object.go" then false
  else
    let content := src
    if !Contains content (txt "ormx:generateModel") then false
    else if Contains content (txt "type Prototype struct") then false
    else if Contains content (txt "type ModelObjet struct") then false
    else true

/-- Type of a type declaration (`ts.Type`): a struct type or anything else. -/
inductive SpecType where
  | StructType (st : StructType)
  | Other
  deriving DecidableEq, Repr

/-- Type declaration (`ast.TypeSpec`). -/
structure TypeSpec where
  Name : Str
  Typ : SpecType
  deriving DecidableEq, Repr

/-- Keyword of a general declaration (`gd.Tok`). -/
inductive Token where
  | IMPORT
  | CONST
  | TYPE
  | VAR
  deriving DecidableEq, Repr

/-- General declaration (`ast.GenDecl`): its keyword, the lines of its doc
comment group when it has one, and, for a `type` declaration, its specs. -/
structure GenDecl where
  Tok : Token
  Doc : Option (List Str)
  Specs : List TypeSpec
  deriving DecidableEq, Repr

/-- Top-level declaration (`ast.Decl`). -/
inductive Decl where
  | GenDecl (gd : GenDecl)
  | FuncDecl
  deriving DecidableEq, Repr

/-- Parsed file (`ast.File`). -/
structure File where
  Decls : List Decl
  deriving DecidableEq, Repr

/-- One file of the file system: its content and whether it can be written. -/
structure FileState where
  content : Str
  writable : Bool
  deriving DecidableEq, Repr

/-- File system: the files by path. -/
abbrev FileSystem := List (Str × FileState)

/-- Model of `os.ReadFile`: the content, `none` for a read error. -/
def ReadFile (fs : FileSystem) (path : Str) : Option Str :=
  (fs.lookup path).map (fun f => f.content)

/-- Replacement of the content stored under `path`. -/
def setContent (path : Str) (data : Str) : FileSystem → FileSystem
  | [] => []
  | (p, f) :: rest =>
    if p = path then (p, { f with content := data }) :: rest
    else (p, f) :: setContent path data rest

/-- Model of `os.WriteFile`: the file system after the write, `none` for a
write error. -/
def WriteFile (fs : FileSystem) (path : Str) (data : Str) : Option FileSystem :=
  match fs.lookup path with
  | some f => if f.writable then some (setContent path data fs) else none
  | none => some (fs ++ [(path, { content := data, writable := true })])

/-- Errors returned by `processFile`. -/
inductive Error where
  | Read
  | Exclude (path : Str)
  | Parse
  | Write
  deriving DecidableEq, Repr

/-- Effect of `append(src[:end], []byte(genCode)...)` on a slice `src` of
capacity `cap`, for an offset `end` within `src`: the new slice, and the
content of `src` afterwards.  When `end + len(genCode)` does not exceed the
capacity, the bytes of `genCode` are written into the array of `src` itself,
from byte `end` on; `src` keeps its length. -/
def spliceAppend (src : Str) (cap endOff : Nat) (genCode : Str) : Str × Str :=
  let newSrc := takeBytes endOff src ++ genCode
  let src := if endOff + byteLen genCode ≤ cap then
      takeBytes (byteLen src) (newSrc ++ dropBytes (endOff + byteLen genCode) src)
    else src
  (newSrc, src)

/-- Loop over `gd.Doc.List` in `processFile`: the table name of the first
comment line that contains the marker, empty when none does. -/
def docTableName : List Str → Str
  | [] => []
  | c :: rest =>
    if Contains c (txt "ormx:generateModel") then extractTableName c
    else docTableName rest

/-- Loop over `gd.Specs` in `processFile`.  The result is the error returned,
if any, the content of `src` and the file system when the loop is left (by its
end, by `break` after a write, or by `return`). -/
def specLoop (path : Str) (cap : Nat) (doc : Option (List Str)) :
    List TypeSpec → Str → FileSystem → Option Error × Str × FileSystem
  | [], src, fs => (none, src, fs)
  | ts :: rest, src, fs =>
    match ts.Typ, doc with
    | .StructType st, some docList =>
      let tableName := docTableName docList
      if tableName = [] then specLoop path cap doc rest src fs
      else
        let structName := ts.Name
        let receiver := ToLower (firstByteString structName)
        let endOff := st.End
        let genCode := generateModelMethods structName receiver tableName st
        let (newSrc, src) := spliceAppend src cap endOff genCode
        let newSrc := ensureOrmxImport newSrc
        match WriteFile fs path newSrc with
        | none => (some Error.Write, src, fs)
        | some fs => (none, src, fs)
    | _, _ => specLoop path cap doc rest src fs

/-- Loop over `node.Decls` in `processFile`. -/
def declLoop (path : Str) (cap : Nat) :
    List Decl → Str → FileSystem → Option Error × FileSystem
  | [], _, fs => (none, fs)
  | decl :: rest, src, fs =>
    match decl with
    | .GenDecl gd =>
      if gd.Tok ≠ Token.TYPE then declLoop path cap rest src fs
      else
        match specLoop path cap gd.Doc gd.Specs src fs with
        | (some err, _, fs) => (some err, fs)
        | (none, src, fs) => declLoop path cap rest src fs
    | .FuncDecl => declLoop path cap rest src fs

/-- Source: `processFile`.  The parser (`parser.ParseFile`) and the capacity of
the slice returned by `os.ReadFile` are parameters; the result is the error
returned, if any, and the file system afterwards. -/
def processFile (parse : Str → Str → Option File) (capOf : Str → Nat)
    (fs : FileSystem) (path : Str) : Option Error × FileSystem :=
  match ReadFile fs path with
  | none => (some Error.Read, fs)
  | some src =>
    if !shouldProcessFile path src then (some (Error.Exclude path), fs)
    else
      match parse path src with
      | none => (some Error.Parse, fs)
      | some node => declLoop path (capOf src) node.Decls src fs

/-- One call of the walk function by `filepath.Walk`: the path visited,
whether it is a directory, and whether the walk reports an error for it. -/
structure WalkEntry where
  path : Str
  isDir : Bool
  err : Bool
  deriving DecidableEq, Repr

/-- The function literal that `RunOne` passes to `filepath.Walk`. -/
def walkFn (parse : Str → Str → Option File) (capOf : Str → Nat)
    (fs : FileSystem) (entry : WalkEntry) : Option Error × FileSystem :=
  if entry.err || entry.isDir || !HasSuffix entry.path (txt ".go") then (none, fs)
  else processFile parse capOf fs entry.path

/-- Model of `filepath.Walk` on the entries of the tree, given in the order in
which the walk visits them: the function is called on each entry in turn, and
the walk stops at the first error the function returns and returns it. -/
def Walk (fn : FileSystem → WalkEntry → Option Error × FileSystem) :
    List WalkEntry → FileSystem → Option Error × FileSystem
  | [], fs => (none, fs)
  | entry :: rest, fs =>
    match fn fs entry with
    | (some err, fs) => (some err, fs)
    | (none, fs) => Walk fn rest fs

/-- Source: `RunOne`, on the entries that the walk of `srcPath` visits. -/
def RunOne (parse : Str → Str → Option File) (capOf : Str → Nat)
    (entries : List WalkEntry) (fs : FileSystem) : Option Error × FileSystem :=
  Walk (walkFn parse capOf) entries fs

/-! ## Vocabulary of the statements -/

/-- Field declarations that carry a name, the ones the loops of
`generateModelMethods` do not skip. -/
def namedFields (fields : List Field) : List Field :=
  fields.filter (fun f => !f.Names.isEmpty)

/-- Storage key the generator computes for a named field declaration. -/
def storageKey (f : Field) : Str := columnOf (f.Names.headD []) f

/-- Field name as the Go language defines it: the declared name, and for an
embedded field the unqualified name of its type. -/
def declaredName (f : Field) : Str :=
  match f.Names, f.Typ with
  | name :: _, _ => name
  | [], .Ident Name => Name
  | [], .SelectorExpr _ Sel => Sel
  | [], .Other => []

/-- Storage key of a declared field following the specification: the `db` tag
when present and not empty, otherwise the lower-cased field name. -/
def declaredStorageKey (f : Field) : Str := columnOf (declaredName f) f

/-- Field tag syntax of the specification: `key:"value"` pairs separated by one
space, between backquotes. -/
def renderTag (pairs : List (Str × Str)) : Str :=
  backquote :: Join (txt " ") (pairs.map (fun p => p.1 ++ txt ":\"" ++ p.2 ++ txt "\""))
    ++ [backquote]

/-- The declaration `Order` of the specification: `ID int64` tagged `db:"id"`
and `Status string`. -/
def orderStruct : StructType :=
  { Fields := [
      { Names := [txt "ID"], Typ := .Ident (txt "int64"),
        Tag := some (renderTag [(txt "db", txt "id")]) },
      { Names := [txt "Status"], Typ := .Ident (txt "string"), Tag := none }],
    End := 0 }

/-- A model that embeds `ormx.ModelObjet` before its key:
`struct \x7b ormx.ModelObjet; ID int64 db:"id" \x7d`. -/
def embeddedModel : StructType :=
  { Fields := [
      { Names := [], Typ := .SelectorExpr (txt "ormx") (txt "ModelObjet"), Tag := none },
      { Names := [txt "ID"], Typ := .Ident (txt "int64"),
        Tag := some (renderTag [(txt "db", txt "id")]) }],
    End := 0 }

/-- Whether the first import line of a text, when it is the opening line of a
group (`import (`), is followed on a later line by a closing parenthesis.  The
first import line is the first line that opens a group or is an import of the
single-line form. -/
def groupClosed : List Str → Bool
  | [] => true
  | line :: rest =>
    if HasPrefix line (txt "import (") then rest.any (fun l => l.contains ')')
    else if HasPrefix line (txt "import ") && Contains line (txt "\"") then true
    else groupClosed rest

/-- Import entries for `"ormx"` following the specification: an import of the
reference, single-line or inside a group, aliased or not, is written on a line
that ends with the quoted reference; the number of such lines bounds the number
of imports of `"ormx"` in a text. -/
def ormxImportLines (s : Str) : Nat :=
  ((Split '\n' s).filter
    (fun line => quotedOrmx.reverse.isPrefixOf (TrimSpace line).reverse)).length

/-- A Go file whose only mention of `"ormx"` is a string literal in a call. -/
def literalOrmxFile : Str :=
  txt "package p\n\nimport (\n\t\"fmt\"\n)\n\nvar name = fmt.Sprint(\"ormx\")\n"

/-- A Go file whose comment holds a line that starts with `import (`. -/
def commentedGroupFile : Str := txt "package p\n/*\nimport (\n*/\n"

/-- A Go file with one grouped import of one entry. -/
def groupedImportFile : Str := txt "package p\n\nimport (\n\t\"fmt\"\n)\n"

/-- A Go file with a single-line import before a grouped import. -/
def mixedImportFile : Str := txt "package p\nimport \"fmt\"\nimport (\n\t\"os\"\n)\n"

/-- A text with no package line and no import. -/
def anchorlessFile : Str := txt "// notes\nvar x = 1\n"

/-- A file system holding a denylisted file that carries the marker. -/
def prototypeFS : FileSystem :=
  [(txt "model/prototype.go",
    { content := txt "package model\n// ormx:generateModel table=t\ntype T struct \x7b\x7d\n",
      writable := true })]

/-- Capacity of the slice that `os.ReadFile` of the Go standard library returns
for a regular file: one byte more than the size of the file, and at least 512. -/
def readFileCap (src : Str) : Nat := max (byteLen src + 1) 512

/-- Whether a type declaration declares a struct type. -/
def isStructSpec (ts : TypeSpec) : Bool :=
  match ts.Typ with
  | .StructType _ => true
  | .Other => false

/-- Eligible declaration: a `type` declaration with a doc comment that yields a
table name and with a struct type among its specs. -/
def declEligible : Decl → Bool
  | .GenDecl gd =>
    decide (gd.Tok = Token.TYPE)
      && (match gd.Doc with
          | some docList => decide (docTableName docList ≠ [])
          | none => false)
      && gd.Specs.any isStructSpec
  | .FuncDecl => false

/-- The field `ID int64` without tag. -/
def idField : Field := Field.mk [txt "ID"] (.Ident (txt "int64")) none

/-- A Go file without the marker. -/
def plainSrc : Str := txt "package model\n\nfunc Util() \x7b\x7d\n"

/-- A file system with the file without marker and a model file after it. -/
def plainFS : FileSystem :=
  [(txt "model/a_util.go", FileState.mk plainSrc true)]

/-- A model file with one annotated struct, an import of `"ormx"` and a
function declared after the struct. -/
def oneModelSrc : Str :=
  txt "package model\n\nimport (\n\t\"ormx\"\n)\n\n// ormx:generateModel table=users\ntype User struct \x7b\n\tID int64\n\x7d\n\nfunc Helper() \x7b\x7d\n"

/-- The struct type of `oneModelSrc`; its closing brace ends at offset 99. -/
def userStruct : StructType := StructType.mk [idField] 99

/-- The declarations of `oneModelSrc`. -/
def oneModelAst : File :=
  File.mk [
    Decl.GenDecl (GenDecl.mk Token.IMPORT none []),
    Decl.GenDecl (GenDecl.mk Token.TYPE (some [txt "// ormx:generateModel table=users"])
      [TypeSpec.mk (txt "User") (SpecType.StructType userStruct)]),
    Decl.FuncDecl]

/-- A file system holding `oneModelSrc`. -/
def oneModelFS : FileSystem := [(txt "model/user.go", FileState.mk oneModelSrc true)]

/-- A model file with two annotated structs `A` and `B`, each its own
declaration. -/
def twoModelsSrc : Str :=
  txt "package model\n\nimport (\n\t\"ormx\"\n)\n\n// ormx:generateModel table=a\ntype A struct \x7b\n\tID int64\n\x7d\n\n// ormx:generateModel table=b\ntype B struct \x7b\n\tID int64\n\x7d\n"

/-- The struct type of `A` in `twoModelsSrc`, ending at offset 92. -/
def structA : StructType := StructType.mk [idField] 92

/-- The struct type of `B` in `twoModelsSrc`, ending at offset 151. -/
def structB : StructType := StructType.mk [idField] 151

/-- The declarations of `twoModelsSrc`. -/
def twoModelsAst : File :=
  File.mk [
    Decl.GenDecl (GenDecl.mk Token.IMPORT none []),
    Decl.GenDecl (GenDecl.mk Token.TYPE (some [txt "// ormx:generateModel table=a"])
      [TypeSpec.mk (txt "A") (SpecType.StructType structA)]),
    Decl.GenDecl (GenDecl.mk Token.TYPE (some [txt "// ormx:generateModel table=b"])
      [TypeSpec.mk (txt "B") (SpecType.StructType structB)])]

/-- A file system holding `twoModelsSrc`. -/
def twoModelsFS : FileSystem := [(txt "model/ab.go", FileState.mk twoModelsSrc true)]

/-- The declarations that the generator appends to a file: `GetMetaData`, the
column variable with its comment, and the five other methods. -/
def generatedDecls : List Decl :=
  [Decl.FuncDecl,
   Decl.GenDecl (GenDecl.mk Token.VAR
     (some [txt "// Variable statique qui renvoie le nom des colonnes, cela est beaucoup plus performant.",
       txt "// IMPORTANT :",
       txt "// Les valeurs doivent être dans le même ordre que la struct et la base de données.",
       txt "// Si la base de données change, il faut mettre à jour cette variable statique."])
     []),
   Decl.FuncDecl, Decl.FuncDecl, Decl.FuncDecl, Decl.FuncDecl, Decl.FuncDecl]

/-- The declarations of the file that the generator makes of `oneModelSrc`:
the import and the struct at the same offsets, then the generated
declarations (the function after the struct is no longer there). -/
def oneModelGeneratedAst : File :=
  File.mk (oneModelAst.Decls.take 2 ++ generatedDecls)

/-- The declarations of the file that the generator makes of `twoModelsSrc`:
the declarations of the source at the same offsets, followed by the generated
methods and column variable of `B`. -/
def twoModelsGeneratedAst : File :=
  File.mk (twoModelsAst.Decls ++ generatedDecls)

/-- A model file whose annotated struct has no field. -/
def emptyStructSrc : Str :=
  txt "package model\n\n// ormx:generateModel table=t\ntype T struct \x7b\x7d\n"

/-- The struct type of `emptyStructSrc`, ending at offset 61. -/
def emptyStruct : StructType := StructType.mk [] 61

/-- The declarations of `emptyStructSrc`. -/
def emptyStructAst : File :=
  File.mk [
    Decl.GenDecl (GenDecl.mk Token.TYPE (some [txt "// ormx:generateModel table=t"])
      [TypeSpec.mk (txt "T") (SpecType.StructType emptyStruct)])]

/-- A file system holding `emptyStructSrc`. -/
def emptyStructFS : FileSystem := [(txt "model/t.go", FileState.mk emptyStructSrc true)]

/-- A model file whose struct name starts with a letter outside ASCII. -/
def accentSrc : Str :=
  txt "package model\n\n// ormx:generateModel table=elans\ntype Élan struct \x7b\n\tID int64\n\x7d\n"

/-- The struct type of `accentSrc`, ending at byte offset 80 (the letter `É`
takes two bytes). -/
def accentStruct : StructType := StructType.mk [idField] 80

/-- The declarations of `accentSrc`. -/
def accentAst : File :=
  File.mk [
    Decl.GenDecl (GenDecl.mk Token.TYPE (some [txt "// ormx:generateModel table=elans"])
      [TypeSpec.mk (txt "Élan") (SpecType.StructType accentStruct)])]

/-- A file system holding `accentSrc`. -/
def accentFS : FileSystem := [(txt "model/elan.go", FileState.mk accentSrc true)]

/-- A directory `model` with the file without marker and the model file, and
the entries of its walk in lexical order. -/
def walkFS : FileSystem :=
  [(txt "model/a_util.go", FileState.mk plainSrc true),
   (txt "model/user.go", FileState.mk oneModelSrc true)]

/-- The entries that the walk of the directory `model` of `walkFS` visits. -/
def walkEntries : List WalkEntry :=
  [WalkEntry.mk (txt "model") true false,
   WalkEntry.mk (txt "model/a_util.go") false false,
   WalkEntry.mk (txt "model/user.go") false false]

/-- A Go file with a single-line import and, further down, a grouped import. -/
def laterGroupFile : Str := txt "package p\nimport \"os\"\n\nimport (\n\t\"fmt\"\n)\n"

/-- A Go file whose only import is a single-line import with an alias. -/
def aliasedImportFile : Str := txt "package p\n\nimport o \"os\"\n"

/-- A Go file whose only import is a plain single-line import. -/
def plainImportFile : Str := txt "package p\n\nimport \"fmt\"\n"

/-- A Go file without import. -/
def noImportFile : Str := txt "package p\n\nvar x = 1\n"

/-- A field of slice type, `Tags []string`. -/
def tagsField : Field := Field.mk [txt "Tags"] TypeExpr.Other none

/-- A field of qualified type, `At time.Time`. -/
def atField : Field := Field.mk [txt "At"] (TypeExpr.SelectorExpr (txt "time") (txt "Time")) none

/-! # Theorems -/

/-! ## Text helpers -/

theorem WriteString_eq (g s : Str) : WriteString g s = g ++ s := rfl

theorem namedFields_nil : namedFields [] = [] := rfl

theorem namedFields_cons_embedded (f : Field) (fs : List Field) (h : f.Names = []) :
    namedFields (f :: fs) = namedFields fs := by
  simp [namedFields, h]

theorem namedFields_cons_named (f : Field) (fs : List Field) (name : Str) (more : List Str)
    (h : f.Names = name :: more) : namedFields (f :: fs) = f :: namedFields fs := by
  simp [namedFields, h]

theorem storageKey_named (f : Field) (name : Str) (more : List Str)
    (h : f.Names = name :: more) : storageKey f = columnOf name f := by
  simp [storageKey, h]

/-- The column loop appends one entry per named field, in order. -/
theorem columnsLoop_eq (fields : List Field) (g : Str) :
    columnsLoop fields g =
      g ++ ((namedFields fields).map
        (fun f => txt "\t\"" ++ storageKey f ++ txt "\",\n")).flatten := by
  induction fields generalizing g with
  | nil => simp [columnsLoop, namedFields]
  | cons f fs ih =>
    have step : columnsLoop (f :: fs) g =
        columnsLoop fs (match f.Names with
          | [] => g
          | name :: _ => WriteString g (txt "\t\"" ++ columnOf name f ++ txt "\",\n")) := by
      simp [columnsLoop]
    rw [step]
    cases hn : f.Names with
    | nil => rw [ih, namedFields_cons_embedded f fs hn]
    | cons name more =>
      rw [ih, namedFields_cons_named f fs name more hn]
      simp [WriteString_eq, List.append_assoc, storageKey_named f name more hn]

/-- The branch loop appends one `case` per named field, in order. -/
theorem caseLoop_eq (receiver : Str) (fields : List Field) (g : Str) :
    caseLoop receiver fields g =
      g ++ ((namedFields fields).map (fun f =>
        txt "\tcase \"" ++ storageKey f ++ txt "\":\n"
          ++ (txt "\t\treturn &ormx.OpsFields\x7bKey: \"" ++ storageKey f
            ++ txt "\", Typ: \"" ++ typeName f.Typ ++ txt "\", Value: " ++ receiver ++ txt "."
            ++ f.Names.headD [] ++ txt ", Ptr: &" ++ receiver ++ txt "." ++ f.Names.headD []
            ++ txt "\x7d\n"))).flatten := by
  induction fields generalizing g with
  | nil => simp [caseLoop, namedFields]
  | cons f fs ih =>
    have step : caseLoop receiver (f :: fs) g =
        caseLoop receiver fs (match f.Names with
          | [] => g
          | name :: _ =>
            WriteString (WriteString g (txt "\tcase \"" ++ columnOf name f ++ txt "\":\n"))
              (txt "\t\treturn &ormx.OpsFields\x7bKey: \"" ++ columnOf name f
                ++ txt "\", Typ: \"" ++ typeName f.Typ ++ txt "\", Value: " ++ receiver
                ++ txt "." ++ name ++ txt ", Ptr: &" ++ receiver ++ txt "." ++ name
                ++ txt "\x7d\n")) := by
      simp [caseLoop]
    rw [step]
    cases hn : f.Names with
    | nil => rw [ih, namedFields_cons_embedded f fs hn]
    | cons name more =>
      rw [ih, namedFields_cons_named f fs name more hn]
      simp [WriteString_eq, List.append_assoc, storageKey_named f name more hn, hn]

/-- The whole generated block, section by section. -/
theorem generateModelMethods_eq (structName receiver tableName : Str) (st : StructType) :
    generateModelMethods structName receiver tableName st =
      bannerText structName ++ metaDataOpen receiver structName
        ++ metaDataBody (primaryKeyLoop st.Fields).1 tableName ++ txt "\x7d\n\n"
        ++ columnsComment ++ columnsOpen structName
        ++ ((namedFields st.Fields).map
            (fun f => txt "\t\"" ++ storageKey f ++ txt "\",\n")).flatten
        ++ txt "\x7d\n\n" ++ getColumnsText receiver structName
        ++ getFieldOpen receiver structName
        ++ caseLoop receiver st.Fields []
        ++ getFieldClose
        ++ keyAccessorsText receiver structName (primaryKeyLoop st.Fields).2 := by
  unfold generateModelMethods
  simp only [WriteString_eq, columnsLoop_eq, caseLoop_eq receiver st.Fields (_ ++ _),
    caseLoop_eq receiver st.Fields [], List.append_assoc, List.nil_append]

theorem primaryKeyLoop_first_named (pre : List Field) (f : Field) (post : List Field)
    (name : Str) (more : List Str) (hpre : ∀ e ∈ pre, e.Names = [])
    (hf : f.Names = name :: more) :
    primaryKeyLoop (pre ++ f :: post) = (columnOf name f, name) := by
  induction pre with
  | nil => simp [primaryKeyLoop, hf]
  | cons e es ih =>
    have he : e.Names = [] := hpre e (List.mem_cons_self _ _)
    have hes : ∀ x ∈ es, x.Names = [] := fun x hx => hpre x (List.mem_cons_of_mem _ hx)
    simp [primaryKeyLoop, he, ih hes]

theorem columnOf_cases (name : Str) (f : Field) :
    columnOf name f =
      (match f.Tag with
       | some tag =>
         if reflectTagValue tag (txt "db") = [] then ToLower name
         else reflectTagValue tag (txt "db")
       | none => ToLower name) := by
  unfold columnOf dbTag
  cases f.Tag with
  | none => simp
  | some tag =>
    by_cases h : reflectTagValue tag (txt "db") = []
    · simp [h]
    · simp [h]

theorem embeddedModel_primaryKeyLoop :
    primaryKeyLoop embeddedModel.Fields = (txt "id", txt "ID") := by decide

theorem embeddedModel_namedFields :
    namedFields embeddedModel.Fields =
      [{ Names := [txt "ID"], Typ := .Ident (txt "int64"),
         Tag := some (renderTag [(txt "db", txt "id")]) }] := by decide

theorem idField_storageKey :
    storageKey { Names := [txt "ID"], Typ := .Ident (txt "int64"),
                 Tag := some (renderTag [(txt "db", txt "id")]) } = txt "id" := by decide

/-- C1 (amended): for every struct declaration in which no field declaration
lists several names, the list written in the `<name>Columns` variable has
exactly one entry per field declaration that has a name, in declaration order,
the entry being the storage key of that field; embedded fields get no entry.
When all N declared fields have a name, these are N entries and the i-th is
the storage key of the i-th declared field. -/
theorem columns_follow_named_fields (structName receiver tableName : Str) (st : StructType)
    (hone : ∀ f ∈ st.Fields, f.Names.length ≤ 1) :
    generateModelMethods structName receiver tableName st =
        bannerText structName ++ metaDataOpen receiver structName
          ++ metaDataBody (primaryKeyLoop st.Fields).1 tableName ++ txt "\x7d\n\n"
          ++ columnsComment
          ++ (txt "var " ++ lowerFirst structName ++ txt "Columns = []string\x7b\n")
          ++ ((namedFields st.Fields).map
              (fun f => txt "\t\"" ++ storageKey f ++ txt "\",\n")).flatten
          ++ txt "\x7d\n\n" ++ getColumnsText receiver structName
          ++ getFieldOpen receiver structName ++ caseLoop receiver st.Fields []
          ++ getFieldClose
          ++ keyAccessorsText receiver structName (primaryKeyLoop st.Fields).2
      ∧ namedFields st.Fields = st.Fields.filter (fun f => f.Names.length = 1)
      ∧ ((∀ f ∈ st.Fields, f.Names ≠ []) → namedFields st.Fields = st.Fields) := by
  refine ⟨?_, ?_, ?_⟩
  · rw [generateModelMethods_eq]
    simp [columnsOpen, List.append_assoc]
  · unfold namedFields
    apply List.filter_congr
    intro f hf
    have h1 := hone f hf
    cases hn : f.Names with
    | nil => simp
    | cons a t =>
      rw [hn] at h1
      have ht : t = [] := by
        cases t with
        | nil => rfl
        | cons b u => simp at h1
      simp [ht]
  · intro hall
    unfold namedFields
    rw [List.filter_eq_self]
    intro f hf
    have := hall f hf
    cases hn : f.Names with
    | nil => exact absurd hn this
    | cons a t => simp

/-- Witness of C1 on the declaration `Order` of the specification: both fields
are named, so the column list is the list of their storage keys. -/
theorem columns_follow_named_fields_witness :
    (∀ f ∈ orderStruct.Fields, f.Names.length ≤ 1)
      ∧ namedFields orderStruct.Fields = orderStruct.Fields
      ∧ orderStruct.Fields.map storageKey = [txt "id", txt "status"] :=
  ⟨by decide,
   (columns_follow_named_fields (txt "Order") (txt "o") (txt "orders") orderStruct
      (by decide)).2.2 (by decide),
   by decide⟩

/-- C1 (as stated) fails: the model `struct \x7b ormx.ModelObjet; ID int64 \x7d`
declares two fields and the generated column list has the single entry `"id"`. -/
theorem columns_skip_embedded_field :
    embeddedModel.Fields.length = 2
      ∧ generateModelMethods (txt "User") (txt "u") (txt "users") embeddedModel =
        bannerText (txt "User") ++ metaDataOpen (txt "u") (txt "User")
          ++ metaDataBody (txt "id") (txt "users") ++ txt "\x7d\n\n"
          ++ columnsComment
          ++ (txt "var " ++ lowerFirst (txt "User") ++ txt "Columns = []string\x7b\n")
          ++ [txt "\t\"" ++ txt "id" ++ txt "\",\n"].flatten
          ++ txt "\x7d\n\n" ++ getColumnsText (txt "u") (txt "User")
          ++ getFieldOpen (txt "u") (txt "User") ++ caseLoop (txt "u") embeddedModel.Fields []
          ++ getFieldClose
          ++ keyAccessorsText (txt "u") (txt "User") (txt "ID") := by
  refine ⟨rfl, ?_⟩
  rw [generateModelMethods_eq, embeddedModel_primaryKeyLoop, embeddedModel_namedFields]
  simp only [List.map_cons, List.map_nil, idField_storageKey, columnsOpen, List.append_assoc]

/-- C2 (amended): for every struct declaration that has a field with a name,
the PrimaryKey string of the generated `GetMetaData` is the storage key of the
first declared field that has a name (embedded fields before it are passed
over): the value of its `db` tag when that is present and not empty, otherwise
its lower-cased name; and the Table string is the given table name. -/
theorem primaryKey_of_first_named_field (structName receiver tableName : Str)
    (st : StructType) (pre : List Field) (f : Field) (post : List Field)
    (name : Str) (more : List Str)
    (hst : st.Fields = pre ++ f :: post) (hpre : ∀ e ∈ pre, e.Names = [])
    (hf : f.Names = name :: more) :
    generateModelMethods structName receiver tableName st =
      bannerText structName ++ metaDataOpen receiver structName
        ++ (txt "\treturn ormx.ModelMeta\x7b\n\t\tPrimaryKey: \""
          ++ (match f.Tag with
              | some tag =>
                if reflectTagValue tag (txt "db") = [] then ToLower name
                else reflectTagValue tag (txt "db")
              | none => ToLower name)
          ++ txt "\",\n\t\tTable:      \"" ++ tableName ++ txt "\",\n\t\x7d\n")
        ++ txt "\x7d\n\n"
        ++ columnsComment ++ columnsOpen structName ++ columnsLoop st.Fields []
        ++ txt "\x7d\n\n" ++ getColumnsText receiver structName
        ++ getFieldOpen receiver structName ++ caseLoop receiver st.Fields []
        ++ getFieldClose
        ++ keyAccessorsText receiver structName name := by
  rw [generateModelMethods_eq, hst, primaryKeyLoop_first_named pre f post name more hpre hf,
    columnsLoop_eq, ← columnOf_cases]
  simp [metaDataBody, List.append_assoc]

/-- Witness of C2 on a model whose first field is embedded: the primary key is
the `db` tag of the first named field. -/
theorem primaryKey_of_first_named_field_witness :
    embeddedModel.Fields =
        [{ Names := [], Typ := .SelectorExpr (txt "ormx") (txt "ModelObjet"), Tag := none }]
          ++ { Names := [txt "ID"], Typ := .Ident (txt "int64"),
               Tag := some (renderTag [(txt "db", txt "id")]) } :: []
      ∧ (∀ e ∈ [({ Names := [], Typ := .SelectorExpr (txt "ormx") (txt "ModelObjet"),
                   Tag := none } : Field)], e.Names = [])
      ∧ generateModelMethods (txt "User") (txt "u") (txt "users") embeddedModel =
        bannerText (txt "User") ++ metaDataOpen (txt "u") (txt "User")
          ++ (txt "\treturn ormx.ModelMeta\x7b\n\t\tPrimaryKey: \""
            ++ (match (some (renderTag [(txt "db", txt "id")]) : Option Str) with
                | some tag =>
                  if reflectTagValue tag (txt "db") = [] then ToLower (txt "ID")
                  else reflectTagValue tag (txt "db")
                | none => ToLower (txt "ID"))
            ++ txt "\",\n\t\tTable:      \"" ++ txt "users" ++ txt "\",\n\t\x7d\n")
          ++ txt "\x7d\n\n"
          ++ columnsComment ++ columnsOpen (txt "User") ++ columnsLoop embeddedModel.Fields []
          ++ txt "\x7d\n\n" ++ getColumnsText (txt "u") (txt "User")
          ++ getFieldOpen (txt "u") (txt "User") ++ caseLoop (txt "u") embeddedModel.Fields []
          ++ getFieldClose
          ++ keyAccessorsText (txt "u") (txt "User") (txt "ID") :=
  ⟨rfl, by decide,
   primaryKey_of_first_named_field (txt "User") (txt "u") (txt "users") embeddedModel
     [{ Names := [], Typ := .SelectorExpr (txt "ormx") (txt "ModelObjet"), Tag := none }]
     { Names := [txt "ID"], Typ := .Ident (txt "int64"),
       Tag := some (renderTag [(txt "db", txt "id")]) } [] (txt "ID") [] rfl (by decide) rfl⟩

/-- C2 (as stated) fails: in `struct \x7b ormx.ModelObjet; ID int64 db:"id" \x7d`
the first declared field is the embedded `ModelObjet`, whose storage key is
`modelobjet`, and the generated PrimaryKey is `id`, the key of the second
field. -/
theorem primaryKey_skips_embedded_field :
    embeddedModel.Fields.head?.map declaredStorageKey = some (txt "modelobjet")
      ∧ txt "id" ≠ txt "modelobjet"
      ∧ generateModelMethods (txt "User") (txt "u") (txt "users") embeddedModel =
        bannerText (txt "User") ++ metaDataOpen (txt "u") (txt "User")
          ++ (txt "\treturn ormx.ModelMeta\x7b\n\t\tPrimaryKey: \"" ++ txt "id"
            ++ txt "\",\n\t\tTable:      \"" ++ txt "users" ++ txt "\",\n\t\x7d\n")
          ++ txt "\x7d\n\n"
          ++ columnsComment ++ columnsOpen (txt "User") ++ columnsLoop embeddedModel.Fields []
          ++ txt "\x7d\n\n" ++ getColumnsText (txt "u") (txt "User")
          ++ getFieldOpen (txt "u") (txt "User") ++ caseLoop (txt "u") embeddedModel.Fields []
          ++ getFieldClose
          ++ keyAccessorsText (txt "u") (txt "User") (txt "ID") := by
  refine ⟨by decide, by decide, ?_⟩
  rw [generateModelMethods_eq, embeddedModel_primaryKeyLoop, columnsLoop_eq]
  simp [metaDataBody, List.append_assoc]

/-- C4 (amended): for every struct declaration in which no field declaration
lists several names, the generated `GetField` has, for each field declaration
that has a name, in declaration order, a branch for its storage key `c` that
returns a descriptor with Key `c`, Typ the type name `T` recorded by the
generator (the identifier of a simple type, `X.Sel` for a qualified one),
Value the receiver's field and Ptr a reference to that same field; embedded
fields get no branch; the default branch returns nil. -/
theorem getField_branches (structName receiver tableName : Str) (st : StructType)
    (hone : ∀ f ∈ st.Fields, f.Names.length ≤ 1) :
    generateModelMethods structName receiver tableName st =
        bannerText structName ++ metaDataOpen receiver structName
          ++ metaDataBody (primaryKeyLoop st.Fields).1 tableName ++ txt "\x7d\n\n"
          ++ columnsComment ++ columnsOpen structName ++ columnsLoop st.Fields []
          ++ txt "\x7d\n\n" ++ getColumnsText receiver structName
          ++ getFieldOpen receiver structName
          ++ ((namedFields st.Fields).map (fun f =>
              txt "\tcase \"" ++ storageKey f ++ txt "\":\n"
                ++ (txt "\t\treturn &ormx.OpsFields\x7bKey: \"" ++ storageKey f
                  ++ txt "\", Typ: \"" ++ typeName f.Typ ++ txt "\", Value: " ++ receiver
                  ++ txt "." ++ f.Names.headD [] ++ txt ", Ptr: &" ++ receiver ++ txt "."
                  ++ f.Names.headD [] ++ txt "\x7d\n"))).flatten
          ++ txt "\tdefault:\n\t\treturn nil\n\t\x7d\n\x7d\n\n"
          ++ keyAccessorsText receiver structName (primaryKeyLoop st.Fields).2
      ∧ namedFields st.Fields = st.Fields.filter (fun f => f.Names.length = 1)
      ∧ (∀ f ∈ namedFields st.Fields, f.Names = [f.Names.headD []])
      ∧ (∀ name sel, typeName (.Ident name) = name
          ∧ typeName (.SelectorExpr name sel) = name ++ txt "." ++ sel) := by
  have hfilter : namedFields st.Fields = st.Fields.filter (fun f => f.Names.length = 1) := by
    unfold namedFields
    apply List.filter_congr
    intro f hf
    have h1 := hone f hf
    cases hn : f.Names with
    | nil => simp
    | cons a t =>
      rw [hn] at h1
      cases t with
      | nil => simp
      | cons b u => simp at h1
  refine ⟨?_, hfilter, ?_, ?_⟩
  · rw [generateModelMethods_eq, columnsLoop_eq, caseLoop_eq]
    simp [getFieldClose, List.append_assoc]
  · intro f hf
    rw [hfilter] at hf
    have h1 := (List.mem_filter.mp hf).2
    cases hn : f.Names with
    | nil => simp [hn] at h1
    | cons a t =>
      cases t with
      | nil => simp
      | cons b u => simp [hn] at h1
  · intro name sel
    exact ⟨rfl, rfl⟩

/-- Witness of C4 on the declaration `Order` of the specification: the branch
for `status` carries the declared type `string`. -/
theorem getField_branches_witness :
    (∀ f ∈ orderStruct.Fields, f.Names.length ≤ 1)
      ∧ namedFields orderStruct.Fields = orderStruct.Fields.filter (fun f => f.Names.length = 1)
      ∧ (orderStruct.Fields.filter (fun f => f.Names.length = 1)).map
          (fun f => (storageKey f, typeName f.Typ, f.Names.headD []))
        = [(txt "id", txt "int64", txt "ID"), (txt "status", txt "string", txt "Status")] :=
  ⟨by decide,
   (getField_branches (txt "Order") (txt "o") (txt "orders") orderStruct (by decide)).2.1,
   by decide⟩

/-- C4 (as stated) fails: the model `struct \x7b ormx.ModelObjet; ID int64 \x7d`
declares two fields and the generated `GetField` has a branch for `id` only,
none for the embedded field. -/
theorem getField_skips_embedded_field :
    embeddedModel.Fields.length = 2
      ∧ generateModelMethods (txt "User") (txt "u") (txt "users") embeddedModel =
        bannerText (txt "User") ++ metaDataOpen (txt "u") (txt "User")
          ++ metaDataBody (txt "id") (txt "users") ++ txt "\x7d\n\n"
          ++ columnsComment ++ columnsOpen (txt "User") ++ columnsLoop embeddedModel.Fields []
          ++ txt "\x7d\n\n" ++ getColumnsText (txt "u") (txt "User")
          ++ getFieldOpen (txt "u") (txt "User")
          ++ (txt "\tcase \"id\":\n"
            ++ txt "\t\treturn &ormx.OpsFields\x7bKey: \"id\", Typ: \"int64\", Value: u.ID, Ptr: &u.ID\x7d\n")
          ++ txt "\tdefault:\n\t\treturn nil\n\t\x7d\n\x7d\n\n"
          ++ keyAccessorsText (txt "u") (txt "User") (txt "ID") := by
  refine ⟨rfl, ?_⟩
  have hcase : caseLoop (txt "u") embeddedModel.Fields [] =
      txt "\tcase \"id\":\n"
        ++ txt "\t\treturn &ormx.OpsFields\x7bKey: \"id\", Typ: \"int64\", Value: u.ID, Ptr: &u.ID\x7d\n" := by
    decide
  rw [generateModelMethods_eq, embeddedModel_primaryKeyLoop, hcase, columnsLoop_eq]
  simp [getFieldClose, List.append_assoc]

/-! ## Splitting and trimming -/

theorem Split_ne_nil (sep : Char) (s : Str) : Split sep s ≠ [] := by
  induction s with
  | nil => simp [Split]
  | cons c s ih =>
    unfold Split
    split
    · simp
    · split <;> simp

theorem Split_of_not_mem (sep : Char) (a : Str) (h : ∀ c ∈ a, c ≠ sep) :
    Split sep a = [a] := by
  induction a with
  | nil => rfl
  | cons c a ih =>
    have hc : c ≠ sep := h c (List.mem_cons_self _ _)
    have ha : ∀ x ∈ a, x ≠ sep := fun x hx => h x (List.mem_cons_of_mem _ hx)
    simp [Split, hc, ih ha]

theorem Split_append_sep (sep : Char) (a t : Str) (h : ∀ c ∈ a, c ≠ sep) :
    Split sep (a ++ sep :: t) = a :: Split sep t := by
  induction a with
  | nil => simp [Split]
  | cons c a ih =>
    have hc : c ≠ sep := h c (List.mem_cons_self _ _)
    have ha : ∀ x ∈ a, x ≠ sep := fun x hx => h x (List.mem_cons_of_mem _ hx)
    simp [Split, hc, ih ha]

/-- Splitting a joined list of separator-free parts gives the parts back. -/
theorem Split_Join (sep : Char) (parts : List Str) (hne : parts ≠ [])
    (h : ∀ p ∈ parts, ∀ c ∈ p, c ≠ sep) : Split sep (Join [sep] parts) = parts := by
  induction parts with
  | nil => exact absurd rfl hne
  | cons a rest ih =>
    cases rest with
    | nil => simpa [Join] using Split_of_not_mem sep a (h a (List.mem_cons_self _ _))
    | cons b rest =>
      have ha := h a (List.mem_cons_self _ _)
      have hrest : ∀ p ∈ b :: rest, ∀ c ∈ p, c ≠ sep :=
        fun p hp => h p (List.mem_cons_of_mem _ hp)
      have := ih (by simp) hrest
      simp only [Join, List.append_assoc, List.singleton_append]
      rw [Split_append_sep sep a _ ha, this]

/-- Joining the pieces of a split gives the text back. -/
theorem Join_Split (sep : Char) (s : Str) : Join [sep] (Split sep s) = s := by
  induction s with
  | nil => rfl
  | cons c s ih =>
    unfold Split
    split
    · next h =>
      cases hs : Split sep s with
      | nil => exact absurd hs (Split_ne_nil sep s)
      | cons a rest =>
        rw [hs] at ih
        simp [Join, ih, h]
    · cases hs : Split sep s with
      | nil => exact absurd hs (Split_ne_nil sep s)
      | cons a rest =>
        rw [hs] at ih
        cases rest with
        | nil => simpa [Join] using ih
        | cons b rest =>
          simp only [Join, List.cons_append] at ih ⊢
          rw [ih]

theorem dropWhile_eq_self (p : Char → Bool) (l : Str) (h : ∀ x ∈ l, p x = false) :
    l.dropWhile p = l := by
  cases l with
  | nil => rfl
  | cons a t => simp [List.dropWhile, h a (List.mem_cons_self _ _)]

/-- Trimming removes a wrapping pair of trimmed characters around a text that
has none. -/
theorem trimBoth_wrap (p : Char → Bool) (c : Char) (body : Str) (hc : p c = true)
    (hbody : ∀ x ∈ body, p x = false) : trimBoth p (c :: body ++ [c]) = body := by
  unfold trimBoth
  cases body with
  | nil => simp [List.dropWhile, hc]
  | cons b bs =>
    have hb : p b = false := hbody b (List.mem_cons_self _ _)
    have h1 : (c :: (b :: bs) ++ [c]).dropWhile p = b :: bs ++ [c] := by
      simp [List.dropWhile, hc, hb]
    rw [h1]
    have h2 : (b :: bs ++ [c]).reverse = c :: (b :: bs).reverse := by simp
    rw [h2]
    have h3 : (c :: (b :: bs).reverse).dropWhile p = (b :: bs).reverse := by
      rw [List.dropWhile_cons, if_pos hc]
      exact dropWhile_eq_self p _ (fun x hx => hbody x (List.mem_reverse.mp hx))
    rw [h3, List.reverse_reverse]

theorem ToLower_CreatedAt : ToLower (txt "CreatedAt") = txt "createdat" := by decide

/-! ## Tag parsing -/

theorem mem_Join (sep : Str) (parts : List Str) (x : Char) (h : x ∈ Join sep parts) :
    x ∈ sep ∨ ∃ p ∈ parts, x ∈ p := by
  induction parts with
  | nil => simp [Join] at h
  | cons a rest ih =>
    cases rest with
    | nil => exact Or.inr ⟨a, List.mem_cons_self _ _, by simpa [Join] using h⟩
    | cons b rest =>
      simp only [Join, List.mem_append] at h
      rcases h with (h | h) | h
      · exact Or.inr ⟨a, List.mem_cons_self _ _, h⟩
      · exact Or.inl h
      · rcases ih h with h | ⟨p, hp, hx⟩
        · exact Or.inl h
        · exact Or.inr ⟨p, List.mem_cons_of_mem _ hp, hx⟩

theorem txt_db_colon : txt "db" ++ txt ":" = ['d', 'b', ':'] := rfl

theorem txt_colon_quote : txt ":\"" = [':', '"'] := rfl

theorem txt_quote : txt "\"" = ['"'] := rfl

theorem txt_space : txt " " = [' '] := rfl

/-- A rendered pair starts with `db:` exactly when its key is `db`. -/
theorem HasPrefix_render (k v : Str) (hk : ∀ c ∈ k, c ≠ ':') :
    HasPrefix (k ++ txt ":\"" ++ v ++ txt "\"") (txt "db" ++ txt ":") = decide (k = txt "db") := by
  rw [txt_db_colon, txt_colon_quote, txt_quote]
  have hdb : txt "db" = ['d', 'b'] := rfl
  rw [hdb]
  match k, hk with
  | [], _ => simp [HasPrefix, List.isPrefixOf]
  | [a], _ =>
    simp [HasPrefix, List.isPrefixOf]
  | [a, b], _ =>
    rcases eq_or_ne a 'd' with ha | ha <;> rcases eq_or_ne b 'b' with hb | hb <;>
      simp [HasPrefix, List.isPrefixOf, ha, hb, ha.symm, hb.symm]
  | a :: b :: c :: rest, hk =>
    have hc : c ≠ ':' := hk c (by simp)
    simp only [HasPrefix, List.isPrefixOf, List.cons_append, Bool.and_eq_true, beq_iff_eq,
      decide_eq_true_eq, List.cons.injEq, Bool.and_true]
    have hne : ¬ (a = 'd' ∧ b = 'b' ∧ c :: rest = []) := by simp
    have hne2 : (':' == c) = false := by simpa using fun h => hc h.symm
    simp [hne2]

theorem render_chars (k v : Str) (bad : Char) (hbad : bad ≠ ':' ∧ bad ≠ '"')
    (hk : ∀ c ∈ k, c ≠ bad) (hv : ∀ c ∈ v, c ≠ bad) :
    ∀ c ∈ k ++ txt ":\"" ++ v ++ txt "\"", c ≠ bad := by
  intro c hc
  rw [txt_colon_quote, txt_quote] at hc
  simp only [List.mem_append, List.mem_cons, List.mem_singleton, List.not_mem_nil,
    or_false] at hc
  rcases hc with ((hc | hc | hc) | hc) | hc
  · exact hk c hc
  · rw [hc]; exact fun h => hbad.1 h.symm
  · rw [hc]; exact fun h => hbad.2 h.symm
  · exact hv c hc
  · rw [hc]; exact fun h => hbad.2 h.symm

/-- Lookup of `db` among the rendered pairs of a tag. -/
theorem find_db_render (pairs : List (Str × Str))
    (hkey : ∀ p ∈ pairs, ∀ c ∈ p.1, c ≠ ':')
    (hval : ∀ p ∈ pairs, ∀ c ∈ p.2, c ≠ '"') :
    (match (pairs.map (fun p => p.1 ++ txt ":\"" ++ p.2 ++ txt "\"")).find?
        (fun part => HasPrefix part (txt "db" ++ txt ":")) with
      | some part => Trim (TrimPrefix part (txt "db" ++ txt ":")) '"'
      | none => []) = (pairs.lookup (txt "db")).getD [] := by
  induction pairs with
  | nil => rfl
  | cons kv rest ih =>
    obtain ⟨k, v⟩ := kv
    have hk : ∀ c ∈ k, c ≠ ':' := hkey (k, v) (List.mem_cons_self _ _)
    have hv : ∀ c ∈ v, c ≠ '"' := hval (k, v) (List.mem_cons_self _ _)
    have ih2 := ih (fun p hp => hkey p (List.mem_cons_of_mem _ hp))
      (fun p hp => hval p (List.mem_cons_of_mem _ hp))
    simp only [List.map_cons, List.find?_cons, HasPrefix_render k v hk]
    by_cases hdb : k = txt "db"
    · subst hdb
      have hpre : HasPrefix (txt "db" ++ txt ":\"" ++ v ++ txt "\"") (txt "db" ++ txt ":")
          = true := by rw [HasPrefix_render _ v hk]; simp
      have htrim : TrimPrefix (txt "db" ++ txt ":\"" ++ v ++ txt "\"") (txt "db" ++ txt ":")
          = '"' :: v ++ ['"'] := by
        unfold TrimPrefix
        rw [if_pos hpre]
        rfl
      have hv2 : ∀ x ∈ v, (x == '"') = false := by
        intro x hx
        simpa using hv x hx
      simp only [decide_True, htrim]
      rw [show Trim ('"' :: v ++ ['"']) '"' = v from
        trimBoth_wrap (fun c => c == '"') '"' v (by simp) hv2]
      simp [List.lookup]
    · have hne : (txt "db" == k) = false := by
        simpa using fun h => hdb h.symm
      simp only [hdb, decide_False, ih2]
      simp [List.lookup, hne]

/-- On a tag in the syntax of the specification, `reflectTagValue` returns the
value paired with `db`, and the empty text when no pair has that key. -/
theorem reflectTagValue_renderTag (pairs : List (Str × Str))
    (hkey : ∀ p ∈ pairs, ∀ c ∈ p.1, c ≠ ' ' ∧ c ≠ ':' ∧ c ≠ backquote)
    (hval : ∀ p ∈ pairs, ∀ c ∈ p.2, c ≠ ' ' ∧ c ≠ '"' ∧ c ≠ backquote) :
    reflectTagValue (renderTag pairs) (txt "db") = (pairs.lookup (txt "db")).getD [] := by
  have hparts : ∀ bad : Char, bad ≠ ':' ∧ bad ≠ '"' →
      (∀ p ∈ pairs, ∀ c ∈ p.1, c ≠ bad) → (∀ p ∈ pairs, ∀ c ∈ p.2, c ≠ bad) →
      ∀ part ∈ pairs.map (fun p => p.1 ++ txt ":\"" ++ p.2 ++ txt "\""),
        ∀ c ∈ part, c ≠ bad := by
    intro bad hbad h1 h2 part hpart
    obtain ⟨p, hp, rfl⟩ := List.mem_map.mp hpart
    exact render_chars p.1 p.2 bad hbad (h1 p hp) (h2 p hp)
  have hsp := hparts ' ' (by decide) (fun p hp c hc => (hkey p hp c hc).1)
    (fun p hp c hc => (hval p hp c hc).1)
  have hbq := hparts backquote (by decide) (fun p hp c hc => (hkey p hp c hc).2.2)
    (fun p hp c hc => (hval p hp c hc).2.2)
  have hbody : ∀ x ∈ Join (txt " ") (pairs.map (fun p => p.1 ++ txt ":\"" ++ p.2 ++ txt "\"")),
      (x == backquote) = false := by
    intro x hx
    rcases mem_Join _ _ x hx with h | ⟨p, hp, hxp⟩
    · rw [txt_space] at h
      simp only [List.mem_singleton] at h
      rw [h]; decide
    · simpa using hbq p hp x hxp
  have htrim : Trim (renderTag pairs) backquote
      = Join (txt " ") (pairs.map (fun p => p.1 ++ txt ":\"" ++ p.2 ++ txt "\"")) :=
    trimBoth_wrap (fun c => c == backquote) backquote _ (by simp) hbody
  unfold reflectTagValue
  simp only [htrim]
  cases hp : pairs with
  | nil => rfl
  | cons kv rest =>
    rw [← hp, txt_space, Split_Join ' ' _ (by simp [hp]) hsp]
    exact find_db_render pairs (fun p hp c hc => (hkey p hp c hc).2.1)
      (fun p hp c hc => (hval p hp c hc).2.1)

/-- C3 (amended): for every field whose tag is a backquote-delimited list of
`key:"value"` pairs separated by single spaces, with keys that hold no space,
colon or backquote and values that hold no space, double quote or backquote,
the storage key is the value paired with `db` (the first such pair); when the
tag is absent, has no `db` pair, or the `db` value is empty, it is the field
name lower-cased. -/
theorem storageKey_resolution (name : Str) (more : List Str) (typ : TypeExpr)
    (pairs : List (Str × Str))
    (hkey : ∀ p ∈ pairs, ∀ c ∈ p.1, c ≠ ' ' ∧ c ≠ ':' ∧ c ≠ backquote)
    (hval : ∀ p ∈ pairs, ∀ c ∈ p.2, c ≠ ' ' ∧ c ≠ '"' ∧ c ≠ backquote) :
    columnOf name { Names := name :: more, Typ := typ, Tag := some (renderTag pairs) } =
        (match pairs.lookup (txt "db") with
         | some value => if value = [] then ToLower name else value
         | none => ToLower name)
      ∧ columnOf name { Names := name :: more, Typ := typ, Tag := none } = ToLower name := by
  constructor
  · rw [columnOf_cases]
    simp only [reflectTagValue_renderTag pairs hkey hval]
    cases pairs.lookup (txt "db") with
    | none => simp
    | some value => simp
  · rw [columnOf_cases]

/-- Witness of C3 (amended) on the examples of the specification: a field tagged
`db:"id"` has storage key `id`, and the untagged field `CreatedAt` has storage
key `createdat`. -/
theorem storageKey_resolution_witness :
    (∀ p ∈ [(txt "db", txt "id"), (txt "json", txt "ident")],
        ∀ c ∈ p.1, c ≠ ' ' ∧ c ≠ ':' ∧ c ≠ backquote)
      ∧ (∀ p ∈ [(txt "db", txt "id"), (txt "json", txt "ident")],
        ∀ c ∈ p.2, c ≠ ' ' ∧ c ≠ '"' ∧ c ≠ backquote)
      ∧ columnOf (txt "ID") (Field.mk [txt "ID"] (.Ident (txt "int64"))
          (some (renderTag [(txt "db", txt "id"), (txt "json", txt "ident")]))) = txt "id"
      ∧ columnOf (txt "CreatedAt") (Field.mk [txt "CreatedAt"] .Other none)
          = txt "createdat" := by
  have hk : ∀ p ∈ [(txt "db", txt "id"), (txt "json", txt "ident")],
      ∀ c ∈ p.1, c ≠ ' ' ∧ c ≠ ':' ∧ c ≠ backquote := by decide
  have hv : ∀ p ∈ [(txt "db", txt "id"), (txt "json", txt "ident")],
      ∀ c ∈ p.2, c ≠ ' ' ∧ c ≠ '"' ∧ c ≠ backquote := by decide
  refine ⟨hk, hv, ?_, ?_⟩
  · exact (storageKey_resolution (txt "ID") [] (.Ident (txt "int64")) _ hk hv).1
  · rw [(storageKey_resolution (txt "CreatedAt") [] .Other _ hk hv).2]
    exact ToLower_CreatedAt

/-- C3 (as stated) fails on tag values that hold a space: `reflectTagValue`
splits the tag at every space, inside the quotes too.  For the tag
`db:"first name"` the value paired with `db` is `first name`, and the storage
key is `first`; for the tag `json:"a db:b"`, which has no `db` pair, the
storage key is `b` and not the lower-cased field name. -/
theorem storageKey_cuts_value_at_space :
    renderTag [(txt "db", txt "first name")]
        = backquote :: (txt "db:\"first name\"" ++ [backquote])
      ∧ [(txt "db", txt "first name")].lookup (txt "db") = some (txt "first name")
      ∧ columnOf (txt "FirstName") (Field.mk [txt "FirstName"] (.Ident (txt "string"))
          (some (renderTag [(txt "db", txt "first name")]))) = txt "first"
      ∧ renderTag [(txt "json", txt "a db:b")]
        = backquote :: (txt "json:\"a db:b\"" ++ [backquote])
      ∧ [(txt "json", txt "a db:b")].lookup (txt "db") = none
      ∧ columnOf (txt "Alias") (Field.mk [txt "Alias"] (.Ident (txt "string"))
          (some (renderTag [(txt "json", txt "a db:b")]))) = txt "b"
      ∧ ToLower (txt "Alias") = txt "alias" := by
  decide

/-! ## Annotation parsing -/

theorem Fields_cons_space (c : Char) (s : Str) (hc : isSpace c = true) :
    Fields (c :: s) = Fields s := by
  cases s with
  | nil => simp [Fields, hc]
  | cons d s => simp [Fields, hc]

theorem Fields_concat_space (s : Str) (a : Char) (ha : isSpace a = true) :
    Fields (s ++ [a]) = Fields s := by
  induction s with
  | nil => simp [Fields, ha]
  | cons c s ih =>
    cases s with
    | nil =>
      by_cases hc : isSpace c = true
      · simp [Fields, hc, ha]
      · simp [Fields, hc, ha]
    | cons d s =>
      simp only [List.cons_append] at ih ⊢
      simp only [Fields, ih]

theorem Fields_dropWhile (s : Str) : Fields (s.dropWhile isSpace) = Fields s := by
  induction s with
  | nil => rfl
  | cons c s ih =>
    by_cases hc : isSpace c = true
    · rw [List.dropWhile_cons, if_pos hc, ih, Fields_cons_space c s hc]
    · rw [List.dropWhile_cons, if_neg hc]

theorem Fields_rdropWhile (s : Str) :
    Fields ((s.reverse.dropWhile isSpace).reverse) = Fields s := by
  induction s using List.reverseRecOn with
  | nil => rfl
  | append_singleton s a ih =>
    by_cases ha : isSpace a = true
    · rw [List.reverse_append, List.reverse_singleton, List.singleton_append,
        List.dropWhile_cons, if_pos ha, ih, Fields_concat_space s a ha]
    · rw [List.reverse_append, List.reverse_singleton, List.singleton_append,
        List.dropWhile_cons, if_neg ha]
      simp

/-- Trimming white space does not change the fields of a line. -/
theorem Fields_TrimSpace (s : Str) : Fields (TrimSpace s) = Fields s := by
  unfold TrimSpace trimBoth
  rw [Fields_rdropWhile, Fields_dropWhile]

/-- The fields of a line are its non-empty pieces between white-space
characters. -/
theorem Fields_eq_splitOnP (s : Str) :
    Fields s = (s.splitOnP isSpace).filter (fun tok => !tok.isEmpty) := by
  induction s with
  | nil => simp [Fields]
  | cons c s ih =>
    rw [List.splitOnP_cons]
    by_cases hc : isSpace c = true
    · rw [if_pos hc, Fields_cons_space c s hc, ih]
      simp
    · rw [if_neg hc]
      cases s with
      | nil => simp [Fields, hc]
      | cons d s =>
        rw [List.splitOnP_cons] at ih ⊢
        by_cases hd : isSpace d = true
        · rw [if_pos hd] at ih ⊢
          simp only [Fields, hc, hd, if_true, if_false, Bool.false_eq_true] at ih ⊢
          rw [ih]
          simp
        · rw [if_neg hd] at ih ⊢
          cases hY : List.splitOnP isSpace s with
          | nil => exact absurd hY (List.splitOnP_ne_nil _ _)
          | cons h t =>
            rw [hY] at ih
            simp only [Fields, hc, hd, if_false, Bool.false_eq_true] at ih ⊢
            rw [ih]
            simp

/-- C5: `extractTableName` splits the comment line on white space and returns
the text that follows `table=` in the first token starting with `table=`,
whatever the other tokens are; it returns the empty text when no token starts
with `table=`.  The line `// ormx:generateModel table=unit_test` yields
`unit_test`. -/
theorem extractTableName_first_table_token :
    (∀ comment : Str,
      extractTableName comment =
        (match ((comment.splitOnP isSpace).filter (fun tok => !tok.isEmpty)).find?
            (fun tok => (txt "table=").isPrefixOf tok) with
         | some tok => tok.drop (txt "table=").length
         | none => []))
      ∧ extractTableName (txt "// ormx:generateModel table=unit_test") = txt "unit_test"
      ∧ extractTableName (txt "// ormx:generateModel cache=on table=orders engine=x")
          = txt "orders"
      ∧ extractTableName (txt "// ormx:generateModel") = [] := by
  refine ⟨?_, by decide, by decide, by decide⟩
  intro comment
  have hF : Fields (TrimSpace comment)
      = (comment.splitOnP isSpace).filter (fun tok => !tok.isEmpty) := by
    rw [Fields_TrimSpace, Fields_eq_splitOnP]
  unfold extractTableName
  simp only [hF]
  cases hfind : ((comment.splitOnP isSpace).filter (fun tok => !tok.isEmpty)).find?
      (fun part => HasPrefix part (txt "table=")) with
  | none =>
    have : ((comment.splitOnP isSpace).filter (fun tok => !tok.isEmpty)).find?
        (fun tok => (txt "table=").isPrefixOf tok) = none := hfind
    rw [this]
  | some part =>
    have h2 : ((comment.splitOnP isSpace).filter (fun tok => !tok.isEmpty)).find?
        (fun tok => (txt "table=").isPrefixOf tok) = some part := hfind
    rw [h2]
    have hpre := List.find?_some hfind
    simp only [] at hpre
    simp [TrimPrefix, hpre]

/-! ## Import patching -/

theorem isPrefixOf_iff (p s : Str) : p.isPrefixOf s = true ↔ ∃ t, s = p ++ t := by
  induction p generalizing s with
  | nil => simp [List.isPrefixOf]
  | cons a p ih =>
    cases s with
    | nil => simp [List.isPrefixOf]
    | cons b s =>
      simp only [List.isPrefixOf, Bool.and_eq_true, beq_iff_eq, ih, List.cons_append,
        List.cons.injEq]
      constructor
      · rintro ⟨rfl, t, rfl⟩
        exact ⟨t, rfl, rfl⟩
      · rintro ⟨t, rfl, rfl⟩
        exact ⟨rfl, t, rfl⟩

theorem isPrefixOf_append (p t : Str) : p.isPrefixOf (p ++ t) = true :=
  (isPrefixOf_iff p (p ++ t)).mpr ⟨t, rfl⟩

theorem HasPrefix_split (s p : Str) (h : HasPrefix s p = true) : ∃ t, s = p ++ t :=
  (isPrefixOf_iff p s).mp h

/-- Text search: `Contains` holds exactly when the text has the searched text
as a contiguous part. -/
theorem Contains_iff (s sub : Str) : Contains s sub = true ↔ ∃ a b, s = a ++ sub ++ b := by
  induction s with
  | nil =>
    simp only [Contains, isPrefixOf_iff]
    constructor
    · rintro ⟨t, ht⟩
      exact ⟨[], t, by simpa using ht⟩
    · rintro ⟨a, b, hab⟩
      have h1 : a ++ sub ++ b = [] := hab.symm
      simp only [List.append_eq_nil] at h1
      exact ⟨[], by simp [h1.1.2]⟩
  | cons c s ih =>
    simp only [Contains, Bool.or_eq_true, isPrefixOf_iff, ih]
    constructor
    · rintro (⟨t, ht⟩ | ⟨a, b, hab⟩)
      · exact ⟨[], t, by simpa using ht⟩
      · exact ⟨c :: a, b, by simp [hab]⟩
    · rintro ⟨a, b, hab⟩
      cases a with
      | nil => exact Or.inl ⟨b, by simpa using hab⟩
      | cons a0 a =>
        simp only [List.cons_append, List.cons.injEq] at hab
        exact Or.inr ⟨a, b, hab.2⟩

theorem quotedOrmx_eq : quotedOrmx = ['"', 'o', 'r', 'm', 'x', '"'] := rfl

theorem ormxThenClose_of_occurrence (x y : Str) (hy : ')' ∈ y) :
    ormxThenClose (x ++ quotedOrmx ++ y) = true := by
  induction x with
  | nil =>
    have h1 : quotedOrmx ++ y = '"' :: (['o', 'r', 'm', 'x', '"'] ++ y) := rfl
    have h2 : ('"' :: (['o', 'r', 'm', 'x', '"'] ++ y)).drop quotedOrmx.length = y := rfl
    have h3 : quotedOrmx.isPrefixOf ('"' :: (['o', 'r', 'm', 'x', '"'] ++ y)) = true := by
      rw [← h1]; exact isPrefixOf_append _ _
    rw [List.nil_append, h1]
    unfold ormxThenClose
    rw [h2, h3]
    simp [hy]
  | cons c x ih =>
    simp only [List.cons_append, List.append_assoc] at ih ⊢
    unfold ormxThenClose
    rw [ih]
    simp

/-- The pattern matches at the start of a text that opens an import group and
later holds `"ormx"` followed by a closing parenthesis. -/
theorem matchOrmxAt_group (x y : Str) (hy : ')' ∈ y) :
    matchOrmxAt (txt "import (" ++ x ++ quotedOrmx ++ y) = true := by
  have h0 : txt "import (" ++ x ++ quotedOrmx ++ y
      = txt "import" ++ (' ' :: '(' :: (x ++ quotedOrmx ++ y)) := by
    have : txt "import (" = txt "import" ++ [' ', '('] := rfl
    rw [this]; simp
  rw [h0]
  unfold matchOrmxAt
  rw [isPrefixOf_append, List.drop_left]
  have h1 : (' ' :: '(' :: (x ++ quotedOrmx ++ y)).dropWhile isReSpace
      = '(' :: (x ++ quotedOrmx ++ y) := by
    rw [List.dropWhile_cons, if_pos (by decide), List.dropWhile_cons, if_neg (by decide)]
  simp only [h1, ormxThenClose_of_occurrence x y hy, Bool.or_true, Bool.and_self]

theorem MatchString_of_matchOrmxAt (t : Str) (h : matchOrmxAt t = true) :
    MatchString t = true := by
  cases t with
  | nil => simp [matchOrmxAt, List.isPrefixOf, txt] at h
  | cons c t => simp [MatchString, h]

theorem MatchString_append_left (a t : Str) (h : MatchString t = true) :
    MatchString (a ++ t) = true := by
  induction a with
  | nil => exact h
  | cons c a ih => simp [MatchString, ih]

theorem mem_Join_of_mem (sep : Str) (parts : List Str) (p : Str) (c : Char)
    (hp : p ∈ parts) (hc : c ∈ p) : c ∈ Join sep parts := by
  induction parts with
  | nil => simp at hp
  | cons a rest ih =>
    cases rest with
    | nil =>
      simp only [List.mem_singleton] at hp
      subst hp
      simpa [Join] using hc
    | cons b rest =>
      simp only [Join, List.mem_append]
      rcases List.mem_cons.mp hp with h | h
      · subst h
        exact Or.inl (Or.inl hc)
      · exact Or.inr (ih h)

theorem Join_cons_cons (sep a : Str) (rest : List Str) (h : rest ≠ []) :
    Join sep (a :: rest) = a ++ sep ++ Join sep rest := by
  cases rest with
  | nil => exact absurd rfl h
  | cons b rest => rfl

theorem Join_cons_split (sep a : Str) (rest : List Str) :
    ∃ tail, Join sep (a :: rest) = a ++ tail := by
  cases rest with
  | nil => exact ⟨[], by simp [Join]⟩
  | cons b rest => exact ⟨sep ++ Join sep (b :: rest), by simp [Join]⟩

theorem insertImport_ne_nil (lines patched : List Str) (h : insertImport lines = some patched) :
    patched ≠ [] := by
  induction lines generalizing patched with
  | nil => simp [insertImport] at h
  | cons line rest ih =>
    unfold insertImport at h
    split at h
    · simp only [Option.some.injEq] at h
      rw [← h]; simp
    · split at h
      · simp only [Option.some.injEq] at h
        rw [← h]; simp
      · cases hr : insertImport rest with
        | none => simp [hr] at h
        | some l =>
          simp only [hr, Option.map_some', Option.some.injEq] at h
          rw [← h]; simp

/-- After the first loop has patched a line, the detection pattern matches the
text, provided a patched group is closed later. -/
theorem MatchString_insertImport (lines patched : List Str)
    (hclosed : groupClosed lines = true) (h : insertImport lines = some patched) :
    MatchString (Join (txt "\n") patched) = true := by
  induction lines generalizing patched with
  | nil => simp [insertImport] at h
  | cons line rest ih =>
    unfold insertImport at h
    unfold groupClosed at hclosed
    by_cases hg : HasPrefix line (txt "import (") = true
    · rw [if_pos hg] at h hclosed
      simp only [Option.some.injEq] at h
      obtain ⟨x, hx⟩ := HasPrefix_split line _ hg
      obtain ⟨l, hl, hc⟩ := List.any_eq_true.mp hclosed
      have hc2 : ')' ∈ l := by simpa using hc
      have hrest : rest ≠ [] := List.ne_nil_of_mem hl
      have hmem : ')' ∈ Join (txt "\n") rest := mem_Join_of_mem _ _ l _ hl hc2
      have hentry : txt "\t\"ormx\"" = '\t' :: quotedOrmx := rfl
      rw [← h, Join_cons_cons _ _ _ (by simp), Join_cons_cons _ _ _ hrest, hx, hentry]
      apply MatchString_of_matchOrmxAt
      have := matchOrmxAt_group (x ++ txt "\n" ++ ['\t']) (txt "\n" ++ Join (txt "\n") rest)
        (List.mem_append_right _ hmem)
      simpa [List.append_assoc] using this
    · rw [if_neg hg] at h hclosed
      by_cases hsingle :
          (HasPrefix line (txt "import ") && Contains line (txt "\"")) = true
      · rw [if_pos hsingle] at h
        simp only [Option.some.injEq] at h
        obtain ⟨tail, htail⟩ := Join_cons_split (txt "\n")
          (txt "import (\n\t\"" ++ Trim (TrimSpace (TrimPrefix line (txt "import"))) '"'
            ++ txt "\"\n\t\"ormx\"\n)") rest
        rw [← h, htail]
        apply MatchString_of_matchOrmxAt
        have h1 : txt "import (\n\t\"" = txt "import (" ++ txt "\n\t\"" := rfl
        have h2 : txt "\"\n\t\"ormx\"\n)" = txt "\"\n\t" ++ quotedOrmx ++ txt "\n)" := rfl
        have := matchOrmxAt_group
          (txt "\n\t\"" ++ Trim (TrimSpace (TrimPrefix line (txt "import"))) '"' ++ txt "\"\n\t")
          (txt "\n)" ++ tail) (List.mem_append_left _ (by decide))
        rw [h1, h2]
        simpa [List.append_assoc] using this
      · rw [if_neg hsingle] at h hclosed
        cases hr : insertImport rest with
        | none => simp [hr] at h
        | some l =>
          simp only [hr, Option.map_some', Option.some.injEq] at h
          have hl : l ≠ [] := insertImport_ne_nil rest l hr
          rw [← h, Join_cons_cons _ _ _ hl, List.append_assoc]
          exact MatchString_append_left _ _ (MatchString_append_left _ _ (ih l hclosed hr))

/-- The second loop either leaves the lines as they are or produces a text
that imports `"ormx"` for the detection pattern. -/
theorem insertAfterPackage_cases (lines : List Str) :
    insertAfterPackage lines = lines
      ∨ MatchString (Join (txt "\n") (insertAfterPackage lines)) = true := by
  induction lines with
  | nil => exact Or.inl rfl
  | cons line rest ih =>
    unfold insertAfterPackage
    by_cases hp : HasPrefix line (txt "package ") = true
    · rw [if_pos hp]
      right
      obtain ⟨tail, htail⟩ := Join_cons_split (txt "\n") (txt "import (\n\t\"ormx\"\n)") rest
      rw [Join_cons_cons _ _ _ (by simp), htail, List.append_assoc]
      apply MatchString_append_left
      apply MatchString_append_left
      apply MatchString_of_matchOrmxAt
      have h1 : txt "import (\n\t\"ormx\"\n)" = txt "import (" ++ txt "\n\t" ++ quotedOrmx
          ++ txt "\n)" := rfl
      have := matchOrmxAt_group (txt "\n\t") (txt "\n)" ++ tail)
        (List.mem_append_left _ (by decide))
      rw [h1]
      simpa [List.append_assoc] using this
    · rw [if_neg hp]
      rcases ih with h | h
      · left; rw [h]
      · right
        have hne : insertAfterPackage rest ≠ [] := by
          intro h0
          rw [h0] at h
          simp [Join, MatchString] at h
        rw [Join_cons_cons _ _ _ hne, List.append_assoc]
        exact MatchString_append_left _ _ (MatchString_append_left _ _ h)

theorem ensureOrmxImport_of_match (s : Str) (h : MatchString s = true) :
    ensureOrmxImport s = s := by
  simp [ensureOrmxImport, h]

/-- C6 (amended): import patching is idempotent on every file text whose
first import line, when it is the opening line of a group (`import (`), is
followed on a later line by a closing parenthesis: `ensureOrmxImport
(ensureOrmxImport s) = ensureOrmxImport s`, so the second run adds no further
`"ormx"` entry. -/
theorem ensureOrmxImport_idempotent (s : Str)
    (hclosed : groupClosed (Split '\n' s) = true) :
    ensureOrmxImport (ensureOrmxImport s) = ensureOrmxImport s := by
  by_cases hm : MatchString s = true
  · rw [ensureOrmxImport_of_match s hm, ensureOrmxImport_of_match s hm]
  · have hstep : ensureOrmxImport s =
        (match insertImport (Split '\n' s) with
         | some lines => Join (txt "\n") lines
         | none => Join (txt "\n") (insertAfterPackage (Split '\n' s))) := by
      simp [ensureOrmxImport, hm]
    cases hi : insertImport (Split '\n' s) with
    | some patched =>
      rw [hi] at hstep
      simp only [] at hstep
      rw [hstep]
      exact ensureOrmxImport_of_match _ (MatchString_insertImport _ _ hclosed hi)
    | none =>
      rw [hi] at hstep
      simp only [] at hstep
      rcases insertAfterPackage_cases (Split '\n' s) with h | h
      · have hs : ensureOrmxImport s = s := by
          rw [hstep, h]
          exact Join_Split '\n' s
        rw [hs, hs]
      · rw [hstep]
        exact ensureOrmxImport_of_match _ h

/-- Witness of C6 on a file with one grouped import: the group is closed, and
a second run changes nothing. -/
theorem ensureOrmxImport_idempotent_witness :
    groupClosed (Split '\n' groupedImportFile) = true
      ∧ ensureOrmxImport (ensureOrmxImport groupedImportFile)
          = ensureOrmxImport groupedImportFile :=
  ⟨by decide, ensureOrmxImport_idempotent groupedImportFile (by decide)⟩

/-- C6 (as stated) fails: in the Go file `package p`, `/*`, `import (`, `*/`
the line `import (` is never followed by a closing parenthesis, the detection
pattern does not match the patched text, and a second run inserts a second
`"ormx"` entry. -/
theorem ensureOrmxImport_not_idempotent :
    ensureOrmxImport commentedGroupFile = txt "package p\n/*\nimport (\n\t\"ormx\"\n*/\n"
      ∧ ensureOrmxImport (ensureOrmxImport commentedGroupFile)
          = txt "package p\n/*\nimport (\n\t\"ormx\"\n\t\"ormx\"\n*/\n"
      ∧ ensureOrmxImport (ensureOrmxImport commentedGroupFile)
          ≠ ensureOrmxImport commentedGroupFile := by
  decide

/-- C7 (the code at the failing input): the file `literalOrmxFile` has a
package line and a grouped import of `fmt` only; the detection pattern matches
from `import (` to the string literal `"ormx"` of a later call and its closing
parenthesis, so the text is returned unchanged and imports `"ormx"` nowhere. -/
theorem ensureOrmxImport_misses_import :
    (∃ line ∈ Split '\n' literalOrmxFile, HasPrefix line (txt "package ") = true)
      ∧ ormxImportLines literalOrmxFile = 0
      ∧ MatchString literalOrmxFile = true
      ∧ ensureOrmxImport literalOrmxFile = literalOrmxFile
      ∧ ormxImportLines (ensureOrmxImport literalOrmxFile) = 0 := by
  refine ⟨⟨txt "package p", by decide, by decide⟩, by decide, by decide, by decide, by decide⟩

theorem Split_no_sep (sep : Char) (s : Str) : ∀ l ∈ Split sep s, ∀ c ∈ l, c ≠ sep := by
  induction s with
  | nil => simp [Split]
  | cons a s ih =>
    unfold Split
    by_cases ha : a = sep
    · rw [if_pos ha]
      intro l hl
      rcases List.mem_cons.mp hl with h | h
      · subst h; simp
      · exact ih l h
    · rw [if_neg ha]
      cases hs : Split sep s with
      | nil => exact absurd hs (Split_ne_nil sep s)
      | cons h t =>
        rw [hs] at ih
        intro l hl
        rcases List.mem_cons.mp hl with h1 | h1
        · subst h1
          intro c hc
          rcases List.mem_cons.mp hc with h2 | h2
          · rw [h2]; exact ha
          · exact ih h (List.mem_cons_self _ _) c h2
        · exact ih l (List.mem_cons_of_mem _ h1)

theorem insertImport_at_group (pre : List Str) (line : Str) (post : List Str)
    (hpre : ∀ l ∈ pre, HasPrefix l (txt "import (") = false
      ∧ (HasPrefix l (txt "import ") && Contains l (txt "\"")) = false)
    (hline : HasPrefix line (txt "import (") = true) :
    insertImport (pre ++ line :: post) = some (pre ++ line :: txt "\t\"ormx\"" :: post) := by
  induction pre with
  | nil => simp [insertImport, hline]
  | cons l pre ih =>
    have hl := hpre l (List.mem_cons_self _ _)
    have ih2 := ih (fun x hx => hpre x (List.mem_cons_of_mem _ hx))
    rw [List.cons_append]
    unfold insertImport
    rw [if_neg (by simp [hl.1]), if_neg (by simp [hl.2]), ih2]
    rfl

/-- C8 (amended): for every file text that the detection pattern does not
match and whose first import line is the opening line of a group (a line
starting with `import (` that no single-line import line precedes),
`ensureOrmxImport` returns the same lines with the single line `\t"ormx"`
inserted immediately after that opening line: the new entry is first, the
existing entries keep their order, no other line changes. -/
theorem ensureOrmxImport_group (s : Str) (pre : List Str) (line : Str) (post : List Str)
    (hs : Split '\n' s = pre ++ line :: post)
    (hno : MatchString s = false)
    (hline : HasPrefix line (txt "import (") = true)
    (hpre : ∀ l ∈ pre, HasPrefix l (txt "import (") = false
      ∧ (HasPrefix l (txt "import ") && Contains l (txt "\"")) = false) :
    ensureOrmxImport s = Join (txt "\n") (pre ++ line :: txt "\t\"ormx\"" :: post)
      ∧ Split '\n' (ensureOrmxImport s) = pre ++ line :: txt "\t\"ormx\"" :: post := by
  have h1 : ensureOrmxImport s = Join (txt "\n") (pre ++ line :: txt "\t\"ormx\"" :: post) := by
    simp [ensureOrmxImport, hno, hs, insertImport_at_group pre line post hpre hline]
  refine ⟨h1, ?_⟩
  rw [h1]
  have hsep : txt "\n" = ['\n'] := rfl
  rw [hsep]
  apply Split_Join '\n' _ (by simp)
  intro p hp c hc
  have hlines := Split_no_sep '\n' s
  rw [hs] at hlines
  simp only [List.mem_append, List.mem_cons] at hp
  rcases hp with hp | hp | hp | hp
  · exact hlines p (by simp [hp]) c hc
  · exact hlines p (by simp [hp]) c hc
  · subst hp
    revert c
    decide
  · exact hlines p (by simp [hp]) c hc

/-- Witness of C8: a block with the one entry `"fmt"` ends with two entries,
`"ormx"` first. -/
theorem ensureOrmxImport_group_witness :
    Split '\n' groupedImportFile
        = [txt "package p", txt ""] ++ txt "import (" :: [txt "\t\"fmt\"", txt ")", txt ""]
      ∧ MatchString groupedImportFile = false
      ∧ HasPrefix (txt "import (") (txt "import (") = true
      ∧ (∀ l ∈ [txt "package p", txt ""], HasPrefix l (txt "import (") = false
          ∧ (HasPrefix l (txt "import ") && Contains l (txt "\"")) = false)
      ∧ ensureOrmxImport groupedImportFile
          = Join (txt "\n") ([txt "package p", txt ""] ++ txt "import (" :: txt "\t\"ormx\""
              :: [txt "\t\"fmt\"", txt ")", txt ""])
      ∧ Split '\n' (ensureOrmxImport groupedImportFile)
          = [txt "package p", txt ""] ++ txt "import (" :: txt "\t\"ormx\""
              :: [txt "\t\"fmt\"", txt ")", txt ""] :=
  ⟨by decide, by decide, by decide, by decide,
   ensureOrmxImport_group groupedImportFile [txt "package p", txt ""] (txt "import (")
     [txt "\t\"fmt\"", txt ")", txt ""] (by decide) (by decide) (by decide) (by decide)⟩

/-- C8 (as stated) fails: `mixedImportFile` has a grouped import block and does
not import `"ormx"`, but a single-line import precedes the block; the patcher
rewrites that single-line import and leaves the block as it was, instead of
inserting `\t"ormx"` after the line `import (`. -/
theorem ensureOrmxImport_group_after_single :
    Split '\n' mixedImportFile
        = [txt "package p", txt "import \"fmt\"", txt "import (", txt "\t\"os\"", txt ")", txt ""]
      ∧ MatchString mixedImportFile = false
      ∧ ensureOrmxImport mixedImportFile
          = txt "package p\nimport (\n\t\"fmt\"\n\t\"ormx\"\n)\nimport (\n\t\"os\"\n)\n"
      ∧ ensureOrmxImport mixedImportFile
          ≠ Join (txt "\n") [txt "package p", txt "import \"fmt\"", txt "import (",
              txt "\t\"ormx\"", txt "\t\"os\"", txt ")", txt ""] := by
  decide

theorem insertImport_none (lines : List Str)
    (h : ∀ l ∈ lines, HasPrefix l (txt "import (") = false
      ∧ (HasPrefix l (txt "import ") && Contains l (txt "\"")) = false) :
    insertImport lines = none := by
  induction lines with
  | nil => rfl
  | cons l rest ih =>
    have hl := h l (List.mem_cons_self _ _)
    have ih2 := ih (fun x hx => h x (List.mem_cons_of_mem _ hx))
    simp only [insertImport, hl.1, hl.2, ih2, Bool.false_eq_true, if_false, Option.map_none']

theorem insertAfterPackage_none (lines : List Str)
    (h : ∀ l ∈ lines, HasPrefix l (txt "package ") = false) :
    insertAfterPackage lines = lines := by
  induction lines with
  | nil => rfl
  | cons l rest ih =>
    have hl := h l (List.mem_cons_self _ _)
    have ih2 := ih (fun x hx => h x (List.mem_cons_of_mem _ hx))
    simp only [insertAfterPackage, hl, ih2, Bool.false_eq_true, if_false]

/-- C9: for every file text in which none of the three anchors occurs (no line
starting with `import (`, no single-line import line, no line starting with
`package `), `ensureOrmxImport` returns the text unmodified. -/
theorem ensureOrmxImport_no_anchor (s : Str)
    (hgroup : ∀ l ∈ Split '\n' s, HasPrefix l (txt "import (") = false)
    (hsingle : ∀ l ∈ Split '\n' s,
      (HasPrefix l (txt "import ") && Contains l (txt "\"")) = false)
    (hpackage : ∀ l ∈ Split '\n' s, HasPrefix l (txt "package ") = false) :
    ensureOrmxImport s = s := by
  by_cases hm : MatchString s = true
  · exact ensureOrmxImport_of_match s hm
  · have hi := insertImport_none (Split '\n' s) (fun l hl => ⟨hgroup l hl, hsingle l hl⟩)
    have hp := insertAfterPackage_none (Split '\n' s) hpackage
    have hsep : txt "\n" = ['\n'] := rfl
    simp only [ensureOrmxImport, hm, hi, hp, hsep, Bool.false_eq_true, if_false]
    exact Join_Split '\n' s

/-- Witness of C9 on a text with neither package line nor import. -/
theorem ensureOrmxImport_no_anchor_witness :
    (∀ l ∈ Split '\n' anchorlessFile, HasPrefix l (txt "import (") = false)
      ∧ (∀ l ∈ Split '\n' anchorlessFile,
          (HasPrefix l (txt "import ") && Contains l (txt "\"")) = false)
      ∧ (∀ l ∈ Split '\n' anchorlessFile, HasPrefix l (txt "package ") = false)
      ∧ ensureOrmxImport anchorlessFile = anchorlessFile :=
  ⟨by decide, by decide, by decide,
   ensureOrmxImport_no_anchor anchorlessFile (by decide) (by decide) (by decide)⟩

/-! ## File selection -/

/-- C10: `shouldProcessFile` returns false for every path whose base name is
`prototype.go` or `model_object.go`, for every content that lacks the text
`ormx:generateModel`, and for every content containing `type Prototype struct`
or `type ModelObjet struct`; it returns true in all other cases; and
`processFile` returns the exclusion error and leaves the file system unchanged
for every file that `shouldProcessFile` rejects. -/
theorem shouldProcessFile_gate (path src : Str) :
    (shouldProcessFile path src = true ↔
        Base path ≠ txt "prototype.go" ∧ Base path ≠ txt "model_object.go"
          ∧ (∃ a b, src = a ++ txt "ormx:generateModel" ++ b)
          ∧ (¬ ∃ a b, src = a ++ txt "type Prototype struct" ++ b)
          ∧ (¬ ∃ a b, src = a ++ txt "type ModelObjet struct" ++ b))
      ∧ (∀ (parse : Str → Str → Option File) (capOf : Str → Nat) (fs : FileSystem),
          ReadFile fs path = some src → shouldProcessFile path src = false →
          processFile parse capOf fs path = (some (Error.Exclude path), fs)) := by
  constructor
  · rw [← Contains_iff, ← Contains_iff, ← Contains_iff]
    unfold shouldProcessFile
    by_cases h1 : Base path = txt "prototype.go"
    · simp [h1]
    · by_cases h2 : Base path = txt "model_object.go"
      · simp [h2]
      · cases h3 : Contains src (txt "ormx:generateModel") <;>
          cases h4 : Contains src (txt "type Prototype struct") <;>
          cases h5 : Contains src (txt "type ModelObjet struct") <;>
          simp [h1, h2, h3, h4, h5]
  · intro parse capOf fs hread hreject
    simp [processFile, hread, hreject]

/-- Witness of C10: a file named `prototype.go` that carries the marker is
rejected and the file system is left as it was. -/
theorem shouldProcessFile_gate_witness :
    ReadFile prototypeFS (txt "model/prototype.go")
        = some (txt "package model\n// ormx:generateModel table=t\ntype T struct \x7b\x7d\n")
      ∧ shouldProcessFile (txt "model/prototype.go")
          (txt "package model\n// ormx:generateModel table=t\ntype T struct \x7b\x7d\n") = false
      ∧ processFile (fun _ _ => none) (fun src => src.length) prototypeFS
          (txt "model/prototype.go")
          = (some (Error.Exclude (txt "model/prototype.go")), prototypeFS) :=
  ⟨by decide, by decide,
   (shouldProcessFile_gate (txt "model/prototype.go")
      (txt "package model\n// ormx:generateModel table=t\ntype T struct \x7b\x7d\n")).2
      (fun _ _ => none) (fun src => src.length) prototypeFS (by decide) (by decide)⟩

/-! ## The detection pattern as a language -/

theorem ormxThenClose_iff (g : Str) :
    ormxThenClose g = true ↔ ∃ x y z, g = x ++ quotedOrmx ++ y ++ ')' :: z := by
  constructor
  · intro h
    induction g with
    | nil => simp [ormxThenClose] at h
    | cons c s ih =>
      unfold ormxThenClose at h
      rcases Bool.or_eq_true_iff.mp h with h1 | h1
      · obtain ⟨hp, hc⟩ := Bool.and_eq_true_iff.mp h1
        obtain ⟨t, ht⟩ := (isPrefixOf_iff _ _).mp hp
        rw [ht, List.drop_left] at hc
        have hmem : ')' ∈ t := by simpa using hc
        obtain ⟨y, z, hyz⟩ := List.append_of_mem hmem
        exact ⟨[], y, z, by rw [ht, hyz]; simp⟩
      · obtain ⟨x, y, z, hxyz⟩ := ih h1
        exact ⟨c :: x, y, z, by rw [hxyz]; simp⟩
  · rintro ⟨x, y, z, rfl⟩
    have := ormxThenClose_of_occurrence x (y ++ ')' :: z) (by simp)
    simpa [List.append_assoc] using this

theorem dropWhile_append_stop (p : Char → Bool) (ws r : Str) (hws : ∀ c ∈ ws, p c = true)
    (hr : ∀ c ∈ r.head?, p c = false) : (ws ++ r).dropWhile p = r := by
  induction ws with
  | nil =>
    cases r with
    | nil => rfl
    | cons b r =>
      have hb : p b = false := hr b (by simp)
      simp [List.dropWhile, hb]
  | cons w ws ih =>
    have hw : p w = true := hws w (List.mem_cons_self _ _)
    rw [List.cons_append, List.dropWhile_cons, if_pos hw]
    exact ih (fun c hc => hws c (List.mem_cons_of_mem _ hc))

/-- The words matched by `import\s*(\([\s\S]*?"ormx"[\s\S]*?\)|"ormx")` from the
first character of a text: `import`, white space, then either the quoted
reference, or an opening parenthesis, any text, the quoted reference, any
text, and a closing parenthesis. -/
theorem matchOrmxAt_iff (t : Str) :
    matchOrmxAt t = true ↔
      ∃ ws r, t = txt "import" ++ ws ++ r ∧ (∀ c ∈ ws, isReSpace c = true)
        ∧ ((∃ z, r = quotedOrmx ++ z)
          ∨ (∃ x y z, r = '(' :: (x ++ quotedOrmx ++ y ++ ')' :: z))) := by
  constructor
  · intro h
    unfold matchOrmxAt at h
    obtain ⟨hp, halt⟩ := Bool.and_eq_true_iff.mp h
    obtain ⟨rest, hrest⟩ := (isPrefixOf_iff _ _).mp hp
    rw [hrest, List.drop_left] at halt
    refine ⟨rest.takeWhile isReSpace, rest.dropWhile isReSpace, ?_, ?_, ?_⟩
    · rw [hrest, List.append_assoc, List.takeWhile_append_dropWhile]
    · intro c hc
      exact (List.mem_takeWhile_imp hc)
    · simp only [Bool.or_eq_true] at halt
      rcases halt with h1 | h1
      · exact Or.inl ((isPrefixOf_iff _ _).mp h1)
      · right
        cases hr : rest.dropWhile isReSpace with
        | nil => rw [hr] at h1; simp at h1
        | cons b g =>
          rw [hr] at h1
          by_cases hb : b = '('
          · subst hb
            simp only [] at h1
            obtain ⟨x, y, z, hg⟩ := (ormxThenClose_iff g).mp h1
            exact ⟨x, y, z, by rw [hg]⟩
          · exfalso
            revert h1
            split
            · next heq =>
              simp only [List.cons.injEq] at heq
              exact absurd heq.1 hb
            · simp
  · rintro ⟨ws, r, rfl, hws, halt⟩
    unfold matchOrmxAt
    rw [List.append_assoc, isPrefixOf_append, List.drop_left]
    rcases halt with ⟨z, rfl⟩ | ⟨x, y, z, rfl⟩
    · have hdrop : (ws ++ (quotedOrmx ++ z)).dropWhile isReSpace = quotedOrmx ++ z := by
        apply dropWhile_append_stop _ _ _ hws
        intro c hc
        rw [quotedOrmx_eq] at hc
        simp only [List.cons_append, List.head?_cons, Option.mem_def, Option.some.injEq] at hc
        rw [← hc]; decide
      simp only [hdrop, isPrefixOf_append, Bool.true_or, Bool.and_self]
    · have hdrop : (ws ++ '(' :: (x ++ quotedOrmx ++ y ++ ')' :: z)).dropWhile isReSpace
          = '(' :: (x ++ quotedOrmx ++ y ++ ')' :: z) := by
        apply dropWhile_append_stop _ _ _ hws
        intro c hc
        simp only [List.head?_cons, Option.mem_def, Option.some.injEq] at hc
        rw [← hc]; decide
      have hg : ormxThenClose (x ++ quotedOrmx ++ y ++ ')' :: z) = true :=
        (ormxThenClose_iff _).mpr ⟨x, y, z, rfl⟩
      simp only [hdrop, hg, Bool.or_true, Bool.and_self]

/-- `MatchString` holds exactly when some part of the text is a word of the
pattern `import\s*(\([\s\S]*?"ormx"[\s\S]*?\)|"ormx")`. -/
theorem MatchString_iff (s : Str) :
    MatchString s = true ↔
      ∃ a ws r, s = a ++ txt "import" ++ ws ++ r ∧ (∀ c ∈ ws, isReSpace c = true)
        ∧ ((∃ z, r = quotedOrmx ++ z)
          ∨ (∃ x y z, r = '(' :: (x ++ quotedOrmx ++ y ++ ')' :: z))) := by
  induction s with
  | nil =>
    simp only [MatchString, Bool.false_eq_true, false_iff]
    rintro ⟨a, ws, r, h, _⟩
    have := congrArg List.length h
    simp [txt] at this
    omega
  | cons c s ih =>
    simp only [MatchString, Bool.or_eq_true, ih, matchOrmxAt_iff]
    constructor
    · rintro (⟨ws, r, h, hws, halt⟩ | ⟨a, ws, r, h, hws, halt⟩)
      · exact ⟨[], ws, r, by simpa using h, hws, halt⟩
      · exact ⟨c :: a, ws, r, by simp [h], hws, halt⟩
    · rintro ⟨a, ws, r, h, hws, halt⟩
      cases a with
      | nil => exact Or.inl ⟨ws, r, by simpa using h, hws, halt⟩
      | cons a0 a =>
        simp only [List.cons_append, List.cons.injEq] at h
        exact Or.inr ⟨a, ws, r, h.2, hws, halt⟩

/-! ## Bytes -/

theorem Char_toNat_lt (c : Char) : c.toNat < 1114112 := by
  have h := c.valid
  have h2 : c.val.toNat = c.toNat := rfl
  unfold UInt32.isValidChar Nat.isValidChar at h
  omega

theorem utf8Size_pos (c : Char) : 0 < utf8Size c := by
  unfold utf8Size utf8Bytes
  split_ifs <;> simp

theorem utf8Bytes_lt (c : Char) : ∀ b ∈ utf8Bytes c, b < 256 := by
  have h := Char_toNat_lt c
  unfold utf8Bytes
  split_ifs with h1 h2 h3 h4 <;> simp <;> omega

theorem utf8Bytes_byteChar (b : Nat) (hb : b < 256) : utf8Bytes (byteChar b) = [b] := by
  revert b
  decide!

theorem toBytes_cons (c : Char) (s : Str) : toBytes (c :: s) = utf8Bytes c ++ toBytes s := rfl

theorem toBytes_append (s t : Str) : toBytes (s ++ t) = toBytes s ++ toBytes t := by
  simp [toBytes]

theorem toBytes_map_byteChar (l : List Nat) (hl : ∀ b ∈ l, b < 256) :
    toBytes (l.map byteChar) = l := by
  induction l with
  | nil => rfl
  | cons b rest ih =>
    rw [List.map_cons, toBytes_cons, utf8Bytes_byteChar b (hl b (List.mem_cons_self _ _)),
      ih (fun x hx => hl x (List.mem_cons_of_mem _ hx))]
    rfl

theorem toBytes_explode_take (c : Char) (n : Nat) :
    toBytes ((explode c).take n) = (utf8Bytes c).take n := by
  unfold explode
  rw [← List.map_take]
  exact toBytes_map_byteChar _ (fun b hb => utf8Bytes_lt c b (List.mem_of_mem_take hb))

theorem toBytes_explode_drop (c : Char) (n : Nat) :
    toBytes ((explode c).drop n) = (utf8Bytes c).drop n := by
  unfold explode
  rw [← List.map_drop]
  exact toBytes_map_byteChar _ (fun b hb => utf8Bytes_lt c b (List.mem_of_mem_drop hb))

/-- The number of bytes is the length of the byte sequence. -/
theorem byteLen_eq (s : Str) : byteLen s = (toBytes s).length := by
  induction s with
  | nil => rfl
  | cons c s ih =>
    rw [toBytes_cons, List.length_append, ← ih]
    simp [byteLen, utf8Size]

/-- The slice `s[:n]` holds the first `n` bytes of `s`. -/
theorem toBytes_takeBytes (n : Nat) (s : Str) :
    toBytes (takeBytes n s) = (toBytes s).take n := by
  induction s generalizing n with
  | nil => simp [takeBytes, toBytes]
  | cons c s ih =>
    rw [toBytes_cons, List.take_append_eq_append_take]
    unfold takeBytes
    by_cases h : utf8Size c ≤ n
    · rw [if_pos h, toBytes_cons, ih]
      have hlen : (utf8Bytes c).length ≤ n := h
      rw [List.take_of_length_le hlen]
      rfl
    · rw [if_neg h, toBytes_explode_take]
      have hlen : n - (utf8Bytes c).length = 0 := by
        have : ¬ (utf8Bytes c).length ≤ n := h
        omega
      rw [hlen]
      simp

/-- The slice `s[n:]` holds the bytes of `s` after the first `n`. -/
theorem toBytes_dropBytes (n : Nat) (s : Str) :
    toBytes (dropBytes n s) = (toBytes s).drop n := by
  induction s generalizing n with
  | nil => simp [dropBytes, toBytes]
  | cons c s ih =>
    unfold dropBytes
    by_cases h0 : n = 0
    · rw [if_pos h0, h0]
      rfl
    · rw [if_neg h0, toBytes_cons, List.drop_append_eq_append_drop]
      by_cases h : utf8Size c ≤ n
      · rw [if_pos h, ih]
        have hlen : (utf8Bytes c).length ≤ n := h
        rw [List.drop_of_length_le hlen]
        rfl
      · rw [if_neg h, toBytes_append, toBytes_explode_drop]
        have hlen : n - (utf8Bytes c).length = 0 := by
          have : ¬ (utf8Bytes c).length ≤ n := h
          omega
        rw [hlen]
        rfl

/-- On ASCII text bytes and characters coincide. -/
theorem takeBytes_ascii (s : Str) (hs : ∀ c ∈ s, c.toNat < 128) (n : Nat) :
    takeBytes n s = s.take n ∧ dropBytes n s = s.drop n ∧ byteLen s = s.length := by
  induction s generalizing n with
  | nil => simp [takeBytes, dropBytes, byteLen]
  | cons c s ih =>
    have hc : c.toNat < 128 := hs c (List.mem_cons_self _ _)
    have hraw : isRawByte c = false := by
      simp only [isRawByte, decide_eq_false_iff_not]
      omega
    have hsize : utf8Size c = 1 := by simp [utf8Size, utf8Bytes, hraw, hc]
    have ih2 := fun m => ih (fun x hx => hs x (List.mem_cons_of_mem _ hx)) m
    refine ⟨?_, ?_, ?_⟩
    · unfold takeBytes
      rw [hsize]
      cases n with
      | zero => simp
      | succ m => simp [(ih2 m).1]
    · unfold dropBytes
      rw [hsize]
      cases n with
      | zero => simp
      | succ m => simp [(ih2 m).2.1]
    · have := (ih2 0).2.2
      simp only [byteLen] at this
      simp [byteLen, hsize, this]
      omega

/-! ## The loops of `processFile` -/

theorem specLoop_no_doc (path : Str) (cap : Nat) (specs : List TypeSpec) (src : Str)
    (fs : FileSystem) : specLoop path cap none specs src fs = (none, src, fs) := by
  induction specs with
  | nil => rfl
  | cons ts rest ih =>
    conv_lhs => unfold specLoop
    cases ts.Typ <;> simp [ih]

theorem specLoop_no_table (path : Str) (cap : Nat) (docList : List Str)
    (hdoc : docTableName docList = []) (specs : List TypeSpec) (src : Str) (fs : FileSystem) :
    specLoop path cap (some docList) specs src fs = (none, src, fs) := by
  induction specs with
  | nil => rfl
  | cons ts rest ih =>
    conv_lhs => unfold specLoop
    cases ts.Typ <;> simp [ih, hdoc]

theorem specLoop_no_struct (path : Str) (cap : Nat) (doc : Option (List Str))
    (specs : List TypeSpec) (hspecs : ∀ ts ∈ specs, isStructSpec ts = false)
    (rest : List TypeSpec) (src : Str) (fs : FileSystem) :
    specLoop path cap doc (specs ++ rest) src fs = specLoop path cap doc rest src fs := by
  induction specs with
  | nil => rfl
  | cons ts more ih =>
    have hts : isStructSpec ts = false := hspecs ts (List.mem_cons_self _ _)
    have ih2 := ih (fun t ht => hspecs t (List.mem_cons_of_mem _ ht))
    rw [List.cons_append]
    conv_lhs => unfold specLoop
    unfold isStructSpec at hts
    cases hT : ts.Typ with
    | StructType st => rw [hT] at hts; simp at hts
    | Other => simp [ih2]

/-- The spec loop at the first struct of an annotated declaration: the block
is generated, spliced at the end of the struct, patched and written. -/
theorem specLoop_first_struct (path : Str) (cap : Nat) (docList : List Str)
    (specs : List TypeSpec) (ts : TypeSpec) (rest : List TypeSpec) (st : StructType)
    (src : Str) (fs : FileSystem)
    (hspecs : ∀ t ∈ specs, isStructSpec t = false)
    (hts : ts.Typ = SpecType.StructType st)
    (hdoc : docTableName docList ≠ []) :
    specLoop path cap (some docList) (specs ++ ts :: rest) src fs =
      (match WriteFile fs path (ensureOrmxImport (takeBytes st.End src
          ++ generateModelMethods ts.Name (ToLower (firstByteString ts.Name))
              (docTableName docList) st)) with
       | none => (some Error.Write,
           (spliceAppend src cap st.End
             (generateModelMethods ts.Name (ToLower (firstByteString ts.Name))
               (docTableName docList) st)).2, fs)
       | some fs2 => (none,
           (spliceAppend src cap st.End
             (generateModelMethods ts.Name (ToLower (firstByteString ts.Name))
               (docTableName docList) st)).2, fs2)) := by
  rw [specLoop_no_struct path cap _ specs hspecs]
  conv_lhs => unfold specLoop
  simp only [hts, hdoc, if_false]
  rfl

theorem declLoop_skip (path : Str) (cap : Nat) (pre : List Decl)
    (hpre : ∀ d ∈ pre, declEligible d = false) (rest : List Decl) (src : Str)
    (fs : FileSystem) :
    declLoop path cap (pre ++ rest) src fs = declLoop path cap rest src fs := by
  induction pre with
  | nil => rfl
  | cons d more ih =>
    have hd : declEligible d = false := hpre d (List.mem_cons_self _ _)
    have ih2 := ih (fun x hx => hpre x (List.mem_cons_of_mem _ hx))
    rw [List.cons_append]
    cases d with
    | FuncDecl => simp [declLoop, ih2]
    | GenDecl gd =>
      conv_lhs => unfold declLoop
      by_cases htok : gd.Tok = Token.TYPE
      · simp only [htok, ne_eq, not_true_eq_false, if_false]
        have hskip : specLoop path cap gd.Doc gd.Specs src fs = (none, src, fs) := by
          simp only [declEligible, htok, decide_True, Bool.true_and, Bool.and_eq_false_iff] at hd
          rcases hd with hd | hd
          · cases hdoc : gd.Doc with
            | none => exact specLoop_no_doc path cap _ src fs
            | some docList =>
              rw [hdoc] at hd
              simp only [decide_eq_false_iff_not, ne_eq, not_not] at hd
              exact specLoop_no_table path cap docList hd _ src fs
          · have h1 : ∀ ts ∈ gd.Specs, isStructSpec ts = false := by
              intro ts hts
              cases h : isStructSpec ts with
              | false => rfl
              | true =>
                have : gd.Specs.any isStructSpec = true := List.any_eq_true.mpr ⟨ts, hts, h⟩
                rw [this] at hd
                exact absurd hd (by simp)
            have := specLoop_no_struct path cap gd.Doc gd.Specs h1 [] src fs
            rw [List.append_nil] at this
            rw [this]
            rfl
        rw [hskip]
        exact ih2
      · simp only [ne_eq, htok, not_false_eq_true, if_true]
        exact ih2

theorem declLoop_all_skipped (path : Str) (cap : Nat) (decls : List Decl)
    (h : ∀ d ∈ decls, declEligible d = false) (src : Str) (fs : FileSystem) :
    declLoop path cap decls src fs = (none, fs) := by
  have := declLoop_skip path cap decls h [] src fs
  rw [List.append_nil] at this
  rw [this]
  rfl

/-! ## Exclusion and the walk -/

/-- C11 (amended): for every readable source file whose content does not
contain the marker text `ormx:generateModel`, `processFile` leaves the file
system unchanged and returns the exclusion error (`file exclude: <path>`), and
`RunOne` on that file returns the same error. -/
theorem processFile_excludes_unmarked (parse : Str → Str → Option File) (capOf : Str → Nat)
    (fs : FileSystem) (path src : Str)
    (hread : ReadFile fs path = some src)
    (hmark : Contains src (txt "ormx:generateModel") = false) :
    processFile parse capOf fs path = (some (Error.Exclude path), fs)
      ∧ (HasSuffix path (txt ".go") = true →
          RunOne parse capOf [WalkEntry.mk path false false] fs
            = (some (Error.Exclude path), fs)) := by
  have hreject : shouldProcessFile path src = false := by
    unfold shouldProcessFile
    simp [hmark]
  have hp : processFile parse capOf fs path = (some (Error.Exclude path), fs) := by
    simp [processFile, hread, hreject]
  refine ⟨hp, ?_⟩
  intro hgo
  simp [RunOne, Walk, walkFn, hgo, hp]

/-- Witness of C11 on a Go file without the marker. -/
theorem processFile_excludes_unmarked_witness :
    ReadFile plainFS (txt "model/a_util.go") = some plainSrc
      ∧ Contains plainSrc (txt "ormx:generateModel") = false
      ∧ processFile (fun _ _ => none) readFileCap plainFS (txt "model/a_util.go")
          = (some (Error.Exclude (txt "model/a_util.go")), plainFS) :=
  ⟨by decide, by decide,
   (processFile_excludes_unmarked (fun _ _ => none) readFileCap plainFS
      (txt "model/a_util.go") plainSrc (by decide) (by decide)).1⟩

/-- C11 (as stated) fails: the readable Go file `model/a_util.go` has no
marker, and `processFile` as well as `RunOne` on it return an error. -/
theorem processFile_unmarked_returns_error :
    Contains plainSrc (txt "ormx:generateModel") = false
      ∧ (processFile (fun _ _ => none) readFileCap plainFS (txt "model/a_util.go")).1
          = some (Error.Exclude (txt "model/a_util.go"))
      ∧ (RunOne (fun _ _ => none) readFileCap
          [WalkEntry.mk (txt "model/a_util.go") false false] plainFS).1 ≠ none := by
  decide

theorem Walk_append (fn : FileSystem → WalkEntry → Option Error × FileSystem)
    (pre post : List WalkEntry) (fs fs1 : FileSystem)
    (hpre : Walk fn pre fs = (none, fs1)) : Walk fn (pre ++ post) fs = Walk fn post fs1 := by
  induction pre generalizing fs with
  | nil =>
    simp only [Walk, Prod.mk.injEq, true_and] at hpre
    rw [hpre]; rfl
  | cons e more ih =>
    rw [List.cons_append]
    conv_lhs => unfold Walk
    conv at hpre => lhs; unfold Walk
    cases hfn : fn fs e with
    | mk r fs0 =>
      rw [hfn] at hpre
      cases r with
      | some err => simp at hpre
      | none =>
        simp only [] at hpre ⊢
        exact ih fs0 hpre

/-- C12 (amended): a per-file error aborts the walk.  For every sequence of
entries visited by `RunOne`, as long as no entry fails the next entry is
processed with the file system left by the previous ones; at the first entry
whose processing fails `RunOne` returns that error, and no later entry of the
sequence is processed. -/
theorem RunOne_stops_at_first_error (parse : Str → Str → Option File) (capOf : Str → Nat)
    (pre : List WalkEntry) (entry : WalkEntry) (post : List WalkEntry)
    (fs fs1 fs2 : FileSystem) (err : Error)
    (hpre : RunOne parse capOf pre fs = (none, fs1))
    (hfail : walkFn parse capOf fs1 entry = (some err, fs2)) :
    RunOne parse capOf (pre ++ post) fs = RunOne parse capOf post fs1
      ∧ RunOne parse capOf (pre ++ entry :: post) fs = (some err, fs2) := by
  unfold RunOne at hpre ⊢
  refine ⟨Walk_append _ pre post fs fs1 hpre, ?_⟩
  rw [Walk_append _ pre (entry :: post) fs fs1 hpre]
  conv_lhs => unfold Walk
  rw [hfail]

/-- Witness of C12: the walk of `model` passes the directory entry, fails on
the file without marker and stops there. -/
theorem RunOne_stops_at_first_error_witness :
    RunOne (fun _ _ => some oneModelAst) readFileCap [WalkEntry.mk (txt "model") true false]
        walkFS = (none, walkFS)
      ∧ walkFn (fun _ _ => some oneModelAst) readFileCap walkFS
          (WalkEntry.mk (txt "model/a_util.go") false false)
          = (some (Error.Exclude (txt "model/a_util.go")), walkFS)
      ∧ RunOne (fun _ _ => some oneModelAst) readFileCap
          ([WalkEntry.mk (txt "model") true false]
            ++ WalkEntry.mk (txt "model/a_util.go") false false
              :: [WalkEntry.mk (txt "model/user.go") false false]) walkFS
          = (some (Error.Exclude (txt "model/a_util.go")), walkFS) :=
  ⟨by decide, by decide,
   (RunOne_stops_at_first_error (fun _ _ => some oneModelAst) readFileCap
      [WalkEntry.mk (txt "model") true false]
      (WalkEntry.mk (txt "model/a_util.go") false false)
      [WalkEntry.mk (txt "model/user.go") false false] walkFS walkFS walkFS
      (Error.Exclude (txt "model/a_util.go")) (by decide) (by decide)).2⟩

/-- C12 (as stated) fails: in the walk of `model` the file `a_util.go` is
excluded, `RunOne` returns its error and leaves the later file `user.go` as it
was, although processing `user.go` writes it. -/
theorem RunOne_aborts_walk :
    RunOne (fun _ _ => some oneModelAst) readFileCap walkEntries walkFS
        = (some (Error.Exclude (txt "model/a_util.go")), walkFS)
      ∧ (processFile (fun _ _ => some oneModelAst) readFileCap walkFS (txt "model/user.go")).1
          = none
      ∧ (processFile (fun _ _ => some oneModelAst) readFileCap walkFS (txt "model/user.go")).2
          ≠ walkFS := by
  decide!

/-! ## The content written by `processFile` -/

theorem firstByteString_ascii (c : Char) (rest : Str) (hc : c.toNat < 128) :
    ToLower (firstByteString (c :: rest)) = [toLowerRune c] := by
  have hraw : isRawByte c = false := by
    simp only [isRawByte, decide_eq_false_iff_not]
    omega
  simp [firstByteString, ToLower, leadByte, utf8Bytes, hraw, hc]

theorem lookup_setContent_self (fs : FileSystem) (path data : Str) (f : FileState)
    (h : fs.lookup path = some f) :
    (setContent path data fs).lookup path = some { f with content := data } := by
  induction fs with
  | nil => simp at h
  | cons pf rest ih =>
    obtain ⟨p, g⟩ := pf
    by_cases hp : p = path
    · subst hp
      simp only [List.lookup, beq_self_eq_true] at h
      simp only [Option.some.injEq] at h
      subst h
      simp [setContent, List.lookup]
    · have hne : (path == p) = false := by simpa using fun h => hp h.symm
      simp only [List.lookup, hne] at h
      simp [setContent, hp, List.lookup, hne, ih h]

/-- The content written for a single eligible declaration: for every
eligible, writable file whose only eligible declaration has its first struct
body ending at byte offset `st.End`, `processFile` writes `ensureOrmxImport`
applied to the original bytes before that offset followed by the block of
`generateModelMethods`.  The receiver passed is the lower-cased character
whose code is the first byte of the declaration name; it is the lower-cased
first letter when the name starts with an ASCII character. -/
theorem processFile_single_declaration (parse : Str → Str → Option File) (capOf : Str → Nat)
    (fs : FileSystem) (path src : Str) (node : File)
    (pre : List Decl) (gd : GenDecl) (post : List Decl) (docList : List Str)
    (sp : List TypeSpec) (ts : TypeSpec) (sq : List TypeSpec) (st : StructType)
    (hfile : fs.lookup path = some (FileState.mk src true))
    (hok : shouldProcessFile path src = true)
    (hparse : parse path src = some node)
    (hdecls : node.Decls = pre ++ Decl.GenDecl gd :: post)
    (hpre : ∀ d ∈ pre, declEligible d = false)
    (hpost : ∀ d ∈ post, declEligible d = false)
    (htok : gd.Tok = Token.TYPE)
    (hdoc : gd.Doc = some docList)
    (htable : docTableName docList ≠ [])
    (hspecs : gd.Specs = sp ++ ts :: sq)
    (hsp : ∀ t ∈ sp, isStructSpec t = false)
    (hts : ts.Typ = SpecType.StructType st) :
    processFile parse capOf fs path =
        (none, setContent path
          (ensureOrmxImport (takeBytes st.End src
            ++ generateModelMethods ts.Name (ToLower (firstByteString ts.Name))
                (docTableName docList) st)) fs)
      ∧ (∀ c rest, ts.Name = c :: rest → c.toNat < 128 →
          ToLower (firstByteString ts.Name) = [toLowerRune c]) := by
  constructor
  · have hread : ReadFile fs path = some src := by simp [ReadFile, hfile]
    have hwrite : ∀ data, WriteFile fs path data = some (setContent path data fs) := by
      intro data
      simp [WriteFile, hfile]
    simp only [processFile, hread, hok, hparse, hdecls, Bool.not_true, Bool.false_eq_true,
      if_false]
    rw [declLoop_skip path _ pre hpre]
    conv_lhs => unfold declLoop
    simp only [htok, ne_eq, not_true_eq_false, if_false, hdoc, hspecs]
    rw [specLoop_first_struct path _ docList sp ts sq st src fs hsp hts htable, hwrite]
    simp only []
    exact declLoop_all_skipped path _ post hpost _ _
  · intro c rest hname hc
    rw [hname]
    exact firstByteString_ascii c rest hc

/-- The content written for `oneModelSrc`: the struct `User` ends at offset 99
and the receiver is `u`. -/
theorem processFile_single_declaration_witness :
    processFile (fun _ _ => some oneModelAst) readFileCap oneModelFS (txt "model/user.go") =
        (none, setContent (txt "model/user.go")
          (ensureOrmxImport (takeBytes userStruct.End oneModelSrc
            ++ generateModelMethods (txt "User") (ToLower (firstByteString (txt "User")))
                (docTableName [txt "// ormx:generateModel table=users"]) userStruct))
          oneModelFS)
      ∧ ToLower (firstByteString (txt "User")) = txt "u"
      ∧ docTableName [txt "// ormx:generateModel table=users"] = txt "users" :=
  ⟨(processFile_single_declaration (fun _ _ => some oneModelAst) readFileCap oneModelFS
      (txt "model/user.go") oneModelSrc oneModelAst
      [Decl.GenDecl (GenDecl.mk Token.IMPORT none [])]
      (GenDecl.mk Token.TYPE (some [txt "// ormx:generateModel table=users"])
        [TypeSpec.mk (txt "User") (SpecType.StructType userStruct)])
      [Decl.FuncDecl] [txt "// ormx:generateModel table=users"]
      [] (TypeSpec.mk (txt "User") (SpecType.StructType userStruct)) [] userStruct
      (by decide) (by decide) rfl rfl (by decide) (by decide) rfl rfl (by decide) rfl
      (by decide) rfl).1,
   by decide, by decide⟩

/-- C19 (the code at the failing input): the declaration `Élan` of `accentSrc`
ends at byte offset 80.  The content written is `ensureOrmxImport` of the
first 80 bytes followed by the generated block, but the receiver passed is
not the lower-cased first letter `é`: the source takes the first byte of the
name, 0xC3, as a character and lower-cases it, which gives `ã`.  In the block
the name of the column variable starts with U+FFFD and the stray byte 0x89,
because `lowerFirst` also cuts the name after its first byte. -/
theorem processFile_receiver_is_first_byte :
    leadByte 'É' = 195
      ∧ ToLower (firstByteString (txt "Élan")) = txt "ã"
      ∧ ToLower ((txt "Élan").take 1) = txt "é"
      ∧ takeBytes 80 accentSrc = accentSrc.take 79
      ∧ processFile (fun _ _ => some accentAst) readFileCap accentFS (txt "model/elan.go")
          = (none, [(txt "model/elan.go", FileState.mk
              (ensureOrmxImport (takeBytes 80 accentSrc
                ++ generateModelMethods (txt "Élan") (txt "ã") (txt "elans") accentStruct))
              true)])
      ∧ generateModelMethods (txt "Élan") (txt "ã") (txt "elans") accentStruct
          ≠ generateModelMethods (txt "Élan") (txt "é") (txt "elans") accentStruct
      ∧ Contains (generateModelMethods (txt "Élan") (txt "ã") (txt "elans") accentStruct)
          (txt "func (ã *Élan) GetMetaData() ormx.ModelMeta") = true
      ∧ lowerFirst (txt "Élan") = Char.ofNat 65533 :: rawByte 137 :: txt "lan" := by
  decide!

/-! ## The code at files with several declarations, trailing text, no field -/

/-- C13 (the code at the failing input): `twoModelsSrc` has two eligible
declarations, `A` and `B`, each its own `type` declaration.  After the write
for `A` the `break` leaves only the loop over the specs of `A`; the loop over
the declarations goes on, generates the block of `B` and writes the file
again, so the file ends up with the block of `B`, not with that of `A`. -/
theorem processFile_writes_later_declaration :
    twoModelsAst.Decls.map declEligible = [false, true, true]
      ∧ processFile (fun _ _ => some twoModelsAst) readFileCap twoModelsFS (txt "model/ab.go")
          = (none, [(txt "model/ab.go", FileState.mk
              (twoModelsSrc.take 151
                ++ generateModelMethods (txt "B") (txt "b") (txt "b") structB) true)])
      ∧ twoModelsSrc.take 151 ++ generateModelMethods (txt "B") (txt "b") (txt "b") structB
          ≠ ensureOrmxImport (twoModelsSrc.take 92
              ++ generateModelMethods (txt "A") (txt "a") (txt "a") structA) := by
  decide!

/-- C14 (the code at the failing input): in `oneModelSrc` the function
`Helper` follows the struct, which ends at offset 99.  The content written is
the text before offset 99 followed by the generated block; the text after the
struct is not in it. -/
theorem processFile_drops_text_after_struct :
    oneModelSrc.drop 99 = txt "\n\nfunc Helper() \x7b\x7d\n"
      ∧ processFile (fun _ _ => some oneModelAst) readFileCap oneModelFS (txt "model/user.go")
          = (none, [(txt "model/user.go", FileState.mk
              (oneModelSrc.take 99
                ++ generateModelMethods (txt "User") (txt "u") (txt "users") userStruct) true)])
      ∧ Contains (oneModelSrc.take 99
            ++ generateModelMethods (txt "User") (txt "u") (txt "users") userStruct)
          (txt "func Helper") = false
      ∧ oneModelSrc.take 99
            ++ generateModelMethods (txt "User") (txt "u") (txt "users") userStruct
          ≠ oneModelSrc.take 99
            ++ generateModelMethods (txt "User") (txt "u") (txt "users") userStruct
            ++ oneModelSrc.drop 99 := by
  decide!

/-- The block generated for a struct without field: an empty PrimaryKey, an
empty column list, a `GetField` that has the default branch only, and `IsNew`,
`SetLastID` and `GetPrimaryKeyVal` written for the empty field name.  No path
of `generateModelMethods` looks at the number of fields. -/
theorem generateModelMethods_no_field (structName receiver tableName : Str)
    (st : StructType) (hfields : st.Fields = []) :
    generateModelMethods structName receiver tableName st =
        bannerText structName ++ metaDataOpen receiver structName
          ++ metaDataBody [] tableName ++ txt "\x7d\n\n"
          ++ columnsComment ++ columnsOpen structName ++ txt "\x7d\n\n"
          ++ getColumnsText receiver structName
          ++ getFieldOpen receiver structName ++ getFieldClose
          ++ keyAccessorsText receiver structName [] := by
  rw [generateModelMethods_eq, hfields]
  simp [primaryKeyLoop, namedFields, caseLoop, List.append_assoc]

/-- C15 (the code at the failing input): `emptyStructSrc` holds the annotated
struct `T` without field.  `processFile` returns no error and writes the file
with a generated block after the struct; the block declares the primary key
`""` and holds the statements `return t. == 0`, `t. = id` and `return t.`,
which name an empty field.  (A declaration without table name is skipped by
the test `tableName == ""` of the same loop; the struct without field has no
such test.) -/
theorem processFile_writes_block_without_field :
    emptyStruct.Fields = []
      ∧ processFile (fun _ _ => some emptyStructAst) readFileCap emptyStructFS
          (txt "model/t.go")
          = (none, [(txt "model/t.go", FileState.mk
              (ensureOrmxImport (takeBytes 61 emptyStructSrc
                ++ generateModelMethods (txt "T") (txt "t") (txt "t") emptyStruct)) true)])
      ∧ takeBytes 61 emptyStructSrc = emptyStructSrc.take 61
      ∧ Contains (generateModelMethods (txt "T") (txt "t") (txt "t") emptyStruct)
          (txt "PrimaryKey: \"\",") = true
      ∧ Contains (generateModelMethods (txt "T") (txt "t") (txt "t") emptyStruct)
          (txt "\treturn t. == 0\n") = true
      ∧ Contains (generateModelMethods (txt "T") (txt "t") (txt "t") emptyStruct)
          (txt "\tt. = id\n") = true
      ∧ Contains (generateModelMethods (txt "T") (txt "t") (txt "t") emptyStruct)
          (txt "\treturn t.\n") = true := by
  decide!

/-- C16 (the code at the failing input): the generator is run twice on
`twoModelsSrc`.  In the second run the block of `A` fits into the capacity of
the slice read from the file, so the append for `A` overwrites the bytes of
the slice from offset 92 on, the declaration of `B` included; the write for
`B` then stores the bytes up to offset 92, the first 59 bytes of the block of
`A` (56 characters, three of them `é`) and the block of `B`.  The second run
returns no error and changes the file, which no longer declares `B`. -/
theorem processFile_second_run_changes_file :
    (processFile (fun _ _ => some twoModelsAst) readFileCap twoModelsFS (txt "model/ab.go")).2
        = [(txt "model/ab.go", FileState.mk
            (twoModelsSrc.take 151
              ++ generateModelMethods (txt "B") (txt "b") (txt "b") structB) true)]
      ∧ processFile (fun _ _ => some twoModelsGeneratedAst) readFileCap
          (processFile (fun _ _ => some twoModelsAst) readFileCap twoModelsFS
            (txt "model/ab.go")).2 (txt "model/ab.go")
          = (none, [(txt "model/ab.go", FileState.mk
              (takeBytes 92 twoModelsSrc
                ++ takeBytes 59 (generateModelMethods (txt "A") (txt "a") (txt "a") structA)
                ++ generateModelMethods (txt "B") (txt "b") (txt "b") structB) true)])
      ∧ takeBytes 92 twoModelsSrc = twoModelsSrc.take 92
      ∧ takeBytes 59 (generateModelMethods (txt "A") (txt "a") (txt "a") structA)
          = txt "\n\n// --- Généré automatiquement pour A ---\n\n// GetMetaDa"
      ∧ (txt "\n\n// --- Généré automatiquement pour A ---\n\n// GetMetaDa").length = 56
      ∧ takeBytes 92 twoModelsSrc
            ++ takeBytes 59 (generateModelMethods (txt "A") (txt "a") (txt "a") structA)
            ++ generateModelMethods (txt "B") (txt "b") (txt "b") structB
          ≠ twoModelsSrc.take 151
            ++ generateModelMethods (txt "B") (txt "b") (txt "b") structB
      ∧ Contains (takeBytes 92 twoModelsSrc
            ++ takeBytes 59 (generateModelMethods (txt "A") (txt "a") (txt "a") structA)
            ++ generateModelMethods (txt "B") (txt "b") (txt "b") structB)
          (txt "type B struct") = false := by
  decide!

/-- On a file with one eligible declaration the second run writes the content
that is already there: the block generated the first time follows the struct
and is replaced by the same block. -/
theorem processFile_second_run_single_model :
    processFile (fun _ _ => some oneModelGeneratedAst) readFileCap
        (processFile (fun _ _ => some oneModelAst) readFileCap oneModelFS
          (txt "model/user.go")).2 (txt "model/user.go")
      = (none, (processFile (fun _ _ => some oneModelAst) readFileCap oneModelFS
          (txt "model/user.go")).2) := by
  decide!

/-! ## Branches of the import patcher -/

theorem insertImport_at_single (pre : List Str) (line : Str) (post : List Str)
    (hpre : ∀ l ∈ pre, HasPrefix l (txt "import (") = false
      ∧ (HasPrefix l (txt "import ") && Contains l (txt "\"")) = false)
    (hgroup : HasPrefix line (txt "import (") = false)
    (hsingle : (HasPrefix line (txt "import ") && Contains line (txt "\"")) = true) :
    insertImport (pre ++ line :: post) =
      some (pre ++ (txt "import (\n\t\""
        ++ Trim (TrimSpace (TrimPrefix line (txt "import"))) '"'
        ++ txt "\"\n\t\"ormx\"\n)") :: post) := by
  induction pre with
  | nil =>
    rw [List.nil_append]
    conv_lhs => unfold insertImport
    rw [if_neg (by simp [hgroup]), if_pos hsingle]
    rfl
  | cons l pre ih =>
    have hl := hpre l (List.mem_cons_self _ _)
    have ih2 := ih (fun x hx => hpre x (List.mem_cons_of_mem _ hx))
    rw [List.cons_append]
    conv_lhs => unfold insertImport
    rw [if_neg (by simp [hl.1]), if_neg (by simp [hl.2]), ih2]
    rfl

theorem insertAfterPackage_at (pre : List Str) (line : Str) (post : List Str)
    (hpre : ∀ l ∈ pre, HasPrefix l (txt "package ") = false)
    (hline : HasPrefix line (txt "package ") = true) :
    insertAfterPackage (pre ++ line :: post)
      = pre ++ line :: txt "import (\n\t\"ormx\"\n)" :: post := by
  induction pre with
  | nil =>
    rw [List.nil_append]
    conv_lhs => unfold insertAfterPackage
    rw [if_pos hline]
    rfl
  | cons l pre ih =>
    have hl := hpre l (List.mem_cons_self _ _)
    have ih2 := ih (fun x hx => hpre x (List.mem_cons_of_mem _ hx))
    rw [List.cons_append]
    conv_lhs => unfold insertAfterPackage
    rw [if_neg (by simp [hl]), ih2]
    rfl

/-- C17 (amended): the import patcher picks its branch by the first import
line, not by priority over the whole file.  For every file text that the
detection pattern does not match: when the first line that opens a group or is
a single-line import opens a group, `"ormx"` is inserted after it; when it is
a single-line import, that line is rewritten into a group, also when a grouped
opening line stands further down; when no line is an import line, the group is
inserted after the first `package` line; and when there is no `package` line
either, no branch fires and the text is returned as it is.  These four cases
exclude each other. -/
theorem ensureOrmxImport_by_first_import_line (s : Str) (hno : MatchString s = false) :
    (∀ pre line post, Split '\n' s = pre ++ line :: post →
        (∀ l ∈ pre, HasPrefix l (txt "import (") = false
          ∧ (HasPrefix l (txt "import ") && Contains l (txt "\"")) = false) →
        HasPrefix line (txt "import (") = true →
        ensureOrmxImport s = Join (txt "\n") (pre ++ line :: txt "\t\"ormx\"" :: post))
      ∧ (∀ pre line post, Split '\n' s = pre ++ line :: post →
        (∀ l ∈ pre, HasPrefix l (txt "import (") = false
          ∧ (HasPrefix l (txt "import ") && Contains l (txt "\"")) = false) →
        HasPrefix line (txt "import (") = false →
        (HasPrefix line (txt "import ") && Contains line (txt "\"")) = true →
        ensureOrmxImport s = Join (txt "\n") (pre ++ (txt "import (\n\t\""
          ++ Trim (TrimSpace (TrimPrefix line (txt "import"))) '"'
          ++ txt "\"\n\t\"ormx\"\n)") :: post))
      ∧ (∀ pre line post, Split '\n' s = pre ++ line :: post →
        (∀ l ∈ Split '\n' s, HasPrefix l (txt "import (") = false
          ∧ (HasPrefix l (txt "import ") && Contains l (txt "\"")) = false) →
        (∀ l ∈ pre, HasPrefix l (txt "package ") = false) →
        HasPrefix line (txt "package ") = true →
        ensureOrmxImport s
          = Join (txt "\n") (pre ++ line :: txt "import (\n\t\"ormx\"\n)" :: post))
      ∧ ((∀ l ∈ Split '\n' s, HasPrefix l (txt "import (") = false
          ∧ (HasPrefix l (txt "import ") && Contains l (txt "\"")) = false
          ∧ HasPrefix l (txt "package ") = false) →
        ensureOrmxImport s = s) := by
  refine ⟨?_, ?_, ?_, ?_⟩
  · intro pre line post hs hpre hline
    simp [ensureOrmxImport, hno, hs, insertImport_at_group pre line post hpre hline]
  · intro pre line post hs hpre hgroup hsingle
    simp [ensureOrmxImport, hno, hs, insertImport_at_single pre line post hpre hgroup hsingle]
  · intro pre line post hs hnone hpre hline
    have hi := insertImport_none (Split '\n' s) hnone
    simp only [ensureOrmxImport, hno, hi, Bool.false_eq_true, if_false]
    rw [hs, insertAfterPackage_at pre line post hpre hline]
  · intro hnone
    have hi := insertImport_none (Split '\n' s) (fun l hl => ⟨(hnone l hl).1, (hnone l hl).2.1⟩)
    have hp := insertAfterPackage_none (Split '\n' s) (fun l hl => (hnone l hl).2.2)
    have hsep : txt "\n" = ['\n'] := rfl
    simp only [ensureOrmxImport, hno, hi, hp, hsep, Bool.false_eq_true, if_false]
    exact Join_Split '\n' s

/-- Witness of C17: in `laterGroupFile` the single-line import comes first and
is rewritten, although a grouped import stands further down. -/
theorem ensureOrmxImport_by_first_import_line_witness :
    MatchString laterGroupFile = false
      ∧ Split '\n' laterGroupFile = [txt "package p"] ++ txt "import \"os\""
          :: [txt "", txt "import (", txt "\t\"fmt\"", txt ")", txt ""]
      ∧ ensureOrmxImport laterGroupFile = Join (txt "\n") ([txt "package p"]
          ++ (txt "import (\n\t\""
            ++ Trim (TrimSpace (TrimPrefix (txt "import \"os\"") (txt "import"))) '"'
            ++ txt "\"\n\t\"ormx\"\n)")
          :: [txt "", txt "import (", txt "\t\"fmt\"", txt ")", txt ""]) :=
  ⟨by decide, by decide,
   (ensureOrmxImport_by_first_import_line laterGroupFile (by decide)).2.1
     [txt "package p"] (txt "import \"os\"")
     [txt "", txt "import (", txt "\t\"fmt\"", txt ")", txt ""]
     (by decide) (by decide) (by decide) (by decide)⟩

/-- C17 (as stated) fails: `laterGroupFile` does not import `"ormx"` and has a
grouped-import opening line, yet the single-line import on the earlier line is
rewritten and the group is left as it was; and in `anchorlessFile` no branch
fires at all. -/
theorem ensureOrmxImport_no_group_priority :
    MatchString laterGroupFile = false
      ∧ ensureOrmxImport laterGroupFile
          = txt "package p\nimport (\n\t\"os\"\n\t\"ormx\"\n)\n\nimport (\n\t\"fmt\"\n)\n"
      ∧ ensureOrmxImport laterGroupFile
          ≠ txt "package p\nimport \"os\"\n\nimport (\n\t\"ormx\"\n\t\"fmt\"\n)\n"
      ∧ MatchString anchorlessFile = false
      ∧ ensureOrmxImport anchorlessFile = anchorlessFile := by
  decide

/-- C18 (the code at the failing input): the aliased single-line import
`import o "os"` is rewritten into the entry `"o "os"`, which is not the
original import, whereas the plain `import "fmt"` is kept as `"fmt"`. -/
theorem ensureOrmxImport_mangles_aliased_import :
    MatchString aliasedImportFile = false
      ∧ ensureOrmxImport aliasedImportFile
          = txt "package p\n\nimport (\n\t\"o \"os\"\n\t\"ormx\"\n)\n"
      ∧ ensureOrmxImport aliasedImportFile
          ≠ txt "package p\n\nimport (\n\to \"os\"\n\t\"ormx\"\n)\n"
      ∧ ensureOrmxImport plainImportFile
          = txt "package p\n\nimport (\n\t\"fmt\"\n\t\"ormx\"\n)\n" := by
  decide

/-- C20: the type name recorded in a `GetField` descriptor is the identifier
for a simple named type, `X.Sel` for a qualified type and the literal `string`
for every other type expression, so a field whose type is neither a simple nor
a dotted name gets Typ `string`. -/
theorem descriptor_type_name (structName receiver tableName : Str) (st : StructType) :
    generateModelMethods structName receiver tableName st =
        bannerText structName ++ metaDataOpen receiver structName
          ++ metaDataBody (primaryKeyLoop st.Fields).1 tableName ++ txt "\x7d\n\n"
          ++ columnsComment ++ columnsOpen structName ++ columnsLoop st.Fields []
          ++ txt "\x7d\n\n" ++ getColumnsText receiver structName
          ++ getFieldOpen receiver structName
          ++ ((namedFields st.Fields).map (fun f =>
              txt "\tcase \"" ++ storageKey f ++ txt "\":\n"
                ++ (txt "\t\treturn &ormx.OpsFields\x7bKey: \"" ++ storageKey f
                  ++ txt "\", Typ: \""
                  ++ (match f.Typ with
                      | TypeExpr.Ident Name => Name
                      | TypeExpr.SelectorExpr X Sel => X ++ txt "." ++ Sel
                      | TypeExpr.Other => txt "string")
                  ++ txt "\", Value: " ++ receiver
                  ++ txt "." ++ f.Names.headD [] ++ txt ", Ptr: &" ++ receiver ++ txt "."
                  ++ f.Names.headD [] ++ txt "\x7d\n"))).flatten
          ++ getFieldClose
          ++ keyAccessorsText receiver structName (primaryKeyLoop st.Fields).2
      ∧ caseLoop (txt "p") [tagsField, atField, idField] [] =
          txt "\tcase \"tags\":\n"
            ++ txt "\t\treturn &ormx.OpsFields\x7bKey: \"tags\", Typ: \"string\", Value: p.Tags, Ptr: &p.Tags\x7d\n"
            ++ txt "\tcase \"at\":\n"
            ++ txt "\t\treturn &ormx.OpsFields\x7bKey: \"at\", Typ: \"time.Time\", Value: p.At, Ptr: &p.At\x7d\n"
            ++ txt "\tcase \"id\":\n"
            ++ txt "\t\treturn &ormx.OpsFields\x7bKey: \"id\", Typ: \"int64\", Value: p.ID, Ptr: &p.ID\x7d\n" := by
  constructor
  · rw [generateModelMethods_eq, columnsLoop_eq, caseLoop_eq]
    have htype : ∀ t : TypeExpr, typeName t =
        (match t with
         | TypeExpr.Ident Name => Name
         | TypeExpr.SelectorExpr X Sel => X ++ txt "." ++ Sel
         | TypeExpr.Other => txt "string") := by
      intro t
      cases t <;> rfl
    simp only [htype, List.append_assoc, List.nil_append]
  · decide!

end Ormx
